import Mathlib

/-!
Verification of the core logic of the rust-detection repository
(`src/rust_analyzer.py`): response parsing, comparative ranking, and the
deterministic per-image fallback.

Modelling conventions (a shallow embedding of the Python module):

* JSON values are modelled by the inductive `Json` (Python `json.loads`
  output: `None`, `bool`, `int`, `str`, `list`, `dict`).  Objects are
  association lists with unique keys (what `json.loads` produces).
* The fenced-code-block extraction (`re.search` on three-backquote json
  fences) composed with `json.loads` is the only part abstracted: each
  parser takes the decode outcome directly, `none` standing for
  `json.JSONDecodeError`, `some v` for a successful decode to `v`.  Every
  raw-text input induces exactly one such outcome, so theorems quantified
  over `Option Json` cover all raw-text inputs.
* Python code that can raise is modelled in `Except PyErr`; an uncaught
  exception is `.error e`, and `try/except` clauses translate to `match`
  on the `Except` value catching exactly the listed exception kinds.
* `list.sort(key=k, reverse=r)` is modelled by a stable insertion sort
  whose comparisons run in `Except` (Python `<` raises `TypeError` on
  incomparable values).  A stable comparison sort computes the same list
  as CPython's stable sort whenever the comparator is total on the keys
  involved, and for two-element lists it performs the identical single
  comparison, so error behaviour agrees there as well.
* The two long Korean prompt constants are abbreviated: no claim inspects
  prompt text, only the fact that the multi prompt is parameterised by
  the image count (`MULTI_COMPARISON_PROMPT.format(count=len(images))`).
-/

namespace RustDetect

/-- Python values produced by `json.loads` (floats are not used by any
claim and are omitted). -/
inductive Json where
  | null : Json
  | bool (b : Bool) : Json
  | int (n : Int) : Json
  | str (s : String) : Json
  | arr (xs : List Json) : Json
  | obj (kvs : List (String × Json)) : Json

/-- Exceptions that the modelled code can raise. -/
inductive PyErr where
  | typeError (msg : String) : PyErr
  | attributeError (msg : String) : PyErr
  | exc (msg : String) : PyErr
deriving DecidableEq

/-- Python `str(e)` for a caught exception: the carried message. -/
def PyErr.str : PyErr → String
  | .typeError m => m
  | .attributeError m => m
  | .exc m => m

/-- Python `type(v).__name__` for the modelled values. -/
def pyTypeName : Json → String
  | .null => "NoneType"
  | .bool _ => "bool"
  | .int _ => "int"
  | .str _ => "str"
  | .arr _ => "list"
  | .obj _ => "dict"

/-- Python truthiness of a value (`bool(v)`). -/
def Json.truthy : Json → Bool
  | .null => false
  | .bool b => b
  | .int n => decide (n ≠ 0)
  | .str s => decide (s ≠ "")
  | .arr xs => !xs.isEmpty
  | .obj kvs => !kvs.isEmpty

/-- Python `d.get(key)` on a decoded object: `none` when the key is absent
(`d.get` returns Python `None`; note a stored JSON `null` is kept as
`some .null`, which every downstream use treats exactly like `none`). -/
def dictGet : List (String × Json) → String → Option Json
  | [], _ => none
  | (k, v) :: rest, key => if k = key then some v else dictGet rest key

/-- Python `d.get(key, default)`. -/
def dictGetD (kvs : List (String × Json)) (key : String) (dflt : Json) : Json :=
  (dictGet kvs key).getD dflt

/-- Collapses a stored JSON `null` into Python `None`: the result of
`d.get(key)` as the Python value it denotes (`none` = Python `None`). -/
def pyGetOpt (kvs : List (String × Json)) (key : String) : Option Json :=
  match dictGet kvs key with
  | some .null => none
  | o => o

/-- Truthiness of a field holding `none` (Python `None`) or a value. -/
def pyTruthyOpt : Option Json → Bool
  | none => false
  | some v => v.truthy

mutual
/-- Python `repr(v)` (string escaping inside `repr` of a `str` is
simplified to plain quoting; no claim inspects such text). -/
def pyRepr : Json → String
  | .null => "None"
  | .bool true => "True"
  | .bool false => "False"
  | .int n => toString n
  | .str s => "\x27" ++ s ++ "\x27"
  | .arr xs => "[" ++ String.intercalate ", " (pyReprList xs) ++ "]"
  | .obj kvs => "\x7b" ++ String.intercalate ", " (pyReprPairs kvs) ++ "\x7d"

/-- Helper of `pyRepr` for list elements. -/
def pyReprList : List Json → List String
  | [] => []
  | x :: xs => pyRepr x :: pyReprList xs

/-- Helper of `pyRepr` for dict items. -/
def pyReprPairs : List (String × Json) → List String
  | [] => []
  | (k, v) :: kvs => ("\x27" ++ k ++ "\x27: " ++ pyRepr v) :: pyReprPairs kvs
end

/-- Python `str(v)` as used by f-string interpolation. -/
def pyStr : Json → String
  | .str s => s
  | v => pyRepr v

/-- Three-way integer comparison, written out so that it unfolds by
`simp`. -/
def intCmp (a b : Int) : Ordering :=
  if a < b then .lt else if a = b then .eq else .gt

mutual
/-- Three-way comparison underlying the Python `<` model: defined for
numbers (`bool` is an `int` subtype), strings (lexicographic by code
point) and lists (lexicographic, recursive); every other combination
raises the `TypeError` that Python `<` raises there.  On lists it agrees
with Python `<`, which tests `==` then `<` per position: same-type
positions order identically, and a mixed-type position raises the same
`TypeError` naming the two offending element types. -/
def pyCmp : Json → Json → Except PyErr Ordering
  | .int a, .int b => .ok (intCmp a b)
  | .int a, .bool b => .ok (intCmp a (if b then 1 else 0))
  | .bool a, .int b => .ok (intCmp (if a then (1 : Int) else 0) b)
  | .bool a, .bool b => .ok (intCmp (if a then (1 : Int) else 0) (if b then 1 else 0))
  | .str a, .str b => .ok (compare a b)
  | .arr a, .arr b => pyCmpList a b
  | a, b =>
      .error (.typeError ("\x27<\x27 not supported between instances of \x27" ++
        pyTypeName a ++ "\x27 and \x27" ++ pyTypeName b ++ "\x27"))

/-- Lexicographic three-way comparison of lists: the first strictly
ordered position decides, otherwise the lengths do. -/
def pyCmpList : List Json → List Json → Except PyErr Ordering
  | [], [] => .ok .eq
  | [], _ :: _ => .ok .lt
  | _ :: _, [] => .ok .gt
  | x :: xs, y :: ys =>
      match pyCmp x y with
      | .error e => .error e
      | .ok .eq => pyCmpList xs ys
      | .ok o => .ok o
end

/-- Python `a < b`. -/
def pyLt (a b : Json) : Except PyErr Bool :=
  match pyCmp a b with
  | .error e => .error e
  | .ok o => .ok (o == Ordering.lt)

/-- Python `for x in v`: lists iterate elements, strings iterate
one-character strings, dicts iterate their keys (insertion order);
every other value raises `TypeError`. -/
def pyIter : Json → Except PyErr (List Json)
  | .arr xs => .ok xs
  | .str s => .ok (s.toList.map (fun c => .str c.toString))
  | .obj kvs => .ok (kvs.map (fun kv => .str kv.1))
  | v => .error (.typeError ("\x27" ++ pyTypeName v ++ "\x27 object is not iterable"))

/-- Python `v - 1` as applied to `data.get("image_index", 1)`: defined for
ints and bools, `TypeError` otherwise. -/
def pySubOne : Json → Except PyErr Int
  | .int n => .ok (n - 1)
  | .bool b => .ok ((if b then (1 : Int) else 0) - 1)
  | v =>
      .error (.typeError ("unsupported operand type(s) for -: \x27" ++
        pyTypeName v ++ "\x27 and \x27int\x27"))

/-- Image payloads (`bytes`); contents are never inspected by the core. -/
abbrev Bytes := List Nat

/-- Model of Python `list.sort`: insert `x` into `acc` before the first
element `y` with `cmp x y` (strictly before), after all equal ones. -/
def pyInsertCmp (cmp : α → α → Except PyErr Bool) (x : α) : List α → Except PyErr (List α)
  | [] => .ok [x]
  | y :: ys =>
      match cmp x y with
      | .error e => .error e
      | .ok true => .ok (x :: y :: ys)
      | .ok false =>
          match pyInsertCmp cmp x ys with
          | .error e => .error e
          | .ok r => .ok (y :: r)

/-- Stable insertion sort: fold the input (left to right) into a sorted
accumulator, each element landing after its equals. -/
def pySortCmpAux (cmp : α → α → Except PyErr Bool) : List α → List α → Except PyErr (List α)
  | acc, [] => .ok acc
  | acc, x :: xs =>
      match pyInsertCmp cmp x acc with
      | .error e => .error e
      | .ok acc2 => pySortCmpAux cmp acc2 xs

/-- Python `l.sort(key=k, reverse=rev)` (see the header for why a stable
insertion sort is a faithful model): comparisons apply Python `<` to the
keys, flipped when `reverse=True`. -/
def pySortByKey (k : α → Json) (rev : Bool) (l : List α) : Except PyErr (List α) :=
  pySortCmpAux (fun x y => if rev then pyLt (k y) (k x) else pyLt (k x) (k y)) [] l

/-- Pure counterpart of `pyInsertCmp` for a total boolean comparator. -/
def insB (p : α → α → Bool) (x : α) : List α → List α
  | [] => [x]
  | y :: ys => if p x y then x :: y :: ys else y :: insB p x ys

/-- Pure counterpart of `pySortCmpAux`. -/
def sortB (p : α → α → Bool) : List α → List α → List α
  | acc, [] => acc
  | acc, x :: xs => sortB p (insB p x acc) xs

/-- Python dataclass `RustAnalysisResult` (src/rust_analyzer.py lines
15-28).  Optional fields hold whatever value the decoded JSON supplied
(`none` = Python `None` from an absent key or an explicit default). -/
structure RustAnalysisResult where
  is_metal_rod : Bool
  rust_grade : Option Json := none
  rust_percentage : Option String := none
  rust_score : Option Json := none
  confidence_score : Option Json := none
  rank : Option Json := none
  analysis_reason : Option Json := none
  color_analysis : Option Json := none
  surface_analysis : Option Json := none
  corrosion_analysis : Option Json := none
  error_message : Option String := none

/-- Abbreviated stand-in for the long Korean single-image prompt constant
(src/rust_analyzer.py lines 32-96); no claim inspects prompt text. -/
def SINGLE_ANALYSIS_PROMPT : String := "단일 이미지 분석 프롬프트"

/-- Abbreviated stand-in for `MULTI_COMPARISON_PROMPT.format(count=...)`
(src/rust_analyzer.py lines 100-144 and 222): the comparison prompt as a
function of the image count. -/
def MULTI_COMPARISON_PROMPT (count : Nat) : String :=
  "다중 비교 프롬프트 count=" ++ toString count

/-- The external Vision collaborator (`VisionAPIBase`): each operation
either raises (`.error`, e.g. a transport failure) or returns raw text,
modelled by its fenced-JSON-extraction/decode outcome (`Option Json`,
`none` = `json.JSONDecodeError`). -/
structure VisionAPI where
  analyze_image : Bytes → String → Except PyErr (Option Json)
  analyze_multiple_images : List Bytes → String → Except PyErr (Option Json)

/-- Error message of the non-rod branch of `_parse_single_response`. -/
def NOT_METAL_ROD_MSG : String := "철 막대가 아닌 이미지입니다. 철 막대 사진을 업로드해주세요."

/-- Error message of the `json.JSONDecodeError` branch of
`_parse_single_response`. -/
def PARSE_FAIL_MSG : String := "분석 결과를 파싱할 수 없습니다. 다시 시도해주세요."

/-- Construction of the successful single-image result
(src/rust_analyzer.py lines 185-199): every field is `data.get(...)`;
the percentage pair is formatted as the combined range string when both
ends are non-`None`. -/
def mkSingleResult (kvs : List (String × Json)) : RustAnalysisResult :=
  let rust_percentage :=
    match pyGetOpt kvs "rust_percentage_min", pyGetOpt kvs "rust_percentage_max" with
    | some vmin, some vmax => some (pyStr vmin ++ "~" ++ pyStr vmax ++ "%")
    | _, _ => none
  { is_metal_rod := true
    rust_grade := dictGet kvs "rust_grade"
    rust_percentage := rust_percentage
    rust_score := dictGet kvs "rust_score"
    confidence_score := dictGet kvs "confidence_score"
    analysis_reason := dictGet kvs "analysis_reason"
    color_analysis := dictGet kvs "color_analysis"
    surface_analysis := dictGet kvs "surface_analysis"
    corrosion_analysis := dictGet kvs "corrosion_analysis" }

/-- `RustAnalyzer._parse_single_response` (src/rust_analyzer.py lines
168-205) applied to the decode outcome of the raw response text.  The
`try` block catches exactly `json.JSONDecodeError` (the `none` case);
a payload decoding to a non-dict value hits `data.get` and raises
`AttributeError`, which this function does not catch. -/
def parse_single_response (decoded : Option Json) : Except PyErr RustAnalysisResult :=
  match decoded with
  | none => .ok { is_metal_rod := false, error_message := some PARSE_FAIL_MSG }
  | some (.obj kvs) =>
      if (dictGetD kvs "is_metal_rod" (.bool false)).truthy = false then
        .ok { is_metal_rod := false, error_message := some NOT_METAL_ROD_MSG }
      else
        .ok (mkSingleResult kvs)
  | some v =>
      .error (.attributeError ("\x27" ++ pyTypeName v ++
        "\x27 object has no attribute \x27get\x27"))

/-- `RustAnalyzer.analyze` (src/rust_analyzer.py lines 153-166): call the
collaborator, parse; `except Exception` converts any raised error into a
non-rod result carrying the exception text. -/
def analyze (api : VisionAPI) (image_data : Bytes) : RustAnalysisResult :=
  match api.analyze_image image_data SINGLE_ANALYSIS_PROMPT with
  | .error e =>
      { is_metal_rod := false, error_message := some ("분석 중 오류 발생: " ++ e.str) }
  | .ok decoded =>
      match parse_single_response decoded with
      | .ok r => r
      | .error e =>
          { is_metal_rod := false, error_message := some ("분석 중 오류 발생: " ++ e.str) }

/-- Sort key of `_fallback_individual_analysis` (src/rust_analyzer.py
lines 292-296): `-1` for a non-rod result, else `rust_score or 0`. -/
def fallbackSortKey (item : String × RustAnalysisResult) : Json :=
  if item.2.is_metal_rod = false then .int (-1)
  else match item.2.rust_score with
    | some v => if v.truthy then v else .int 0
    | none => .int 0

/-- Rank assignment of the fallback (src/rust_analyzer.py lines 301-302):
`enumerate(results, start)` walking the sorted list, setting `rank`. -/
def assignRanks (start : Int) : List (String × RustAnalysisResult) → List (String × RustAnalysisResult)
  | [] => []
  | p :: ps => (p.1, { p.2 with rank := some (.int start) }) :: assignRanks (start + 1) ps

/-- `RustAnalyzer._fallback_individual_analysis` (src/rust_analyzer.py
lines 283-304): analyze every image independently, sort by the key above
descending (`reverse=True`, stable), then assign ranks 1..N.  The
`error_msg` parameter is accepted and ignored, as in the source. -/
def fallback_individual_analysis (api : VisionAPI) (images : List (String × Bytes))
    (_error_msg : String := "") : Except PyErr (List (String × RustAnalysisResult)) :=
  let results := images.map (fun p => (p.1, analyze api p.2))
  match pySortByKey fallbackSortKey true results with
  | .error e => .error e
  | .ok sorted => .ok (assignRanks 1 sorted)

/-- Combined `analysis_reason` of a multi-comparison entry
(src/rust_analyzer.py lines 256-259): parenthesize and append the
`comparison_note` when it is truthy. -/
def combineReason (kvs : List (String × Json)) : Json :=
  let comparison_note := dictGetD kvs "comparison_note" (.str "")
  let analysis_reason := dictGetD kvs "analysis_reason" (.str "")
  if comparison_note.truthy then
    .str (pyStr analysis_reason ++ " (" ++ pyStr comparison_note ++ ")")
  else analysis_reason

/-- Construction of one multi-comparison result (src/rust_analyzer.py
lines 252-272): like the single case plus `rank` and the combined
reason; `is_metal_rod` is the literal `True`. -/
def mkMultiResult (kvs : List (String × Json)) : RustAnalysisResult :=
  let rust_percentage :=
    match pyGetOpt kvs "rust_percentage_min", pyGetOpt kvs "rust_percentage_max" with
    | some vmin, some vmax => some (pyStr vmin ++ "~" ++ pyStr vmax ++ "%")
    | _, _ => none
  { is_metal_rod := true
    rust_grade := dictGet kvs "rust_grade"
    rust_percentage := rust_percentage
    rust_score := dictGet kvs "rust_score"
    confidence_score := dictGet kvs "confidence_score"
    rank := dictGet kvs "rank"
    analysis_reason := some (combineReason kvs)
    color_analysis := dictGet kvs "color_analysis"
    surface_analysis := dictGet kvs "surface_analysis"
    corrosion_analysis := dictGet kvs "corrosion_analysis" }

/-- The entry loop of `_parse_multi_response` (src/rust_analyzer.py lines
246-273): resolve `image_index - 1` (default index 1), silently skip
out-of-range entries, build pairs in entry order.  A non-dict entry
raises `AttributeError` on `.get`; a non-numeric `image_index` raises
`TypeError` on `- 1`; neither is caught by this parser. -/
def processEntries (images : List (String × Bytes)) :
    List Json → Except PyErr (List (String × RustAnalysisResult))
  | [] => .ok []
  | e :: rest =>
      match e with
      | .obj kvs =>
          match pySubOne (dictGetD kvs "image_index" (.int 1)) with
          | .error e => .error e
          | .ok img_idx =>
              if 0 ≤ img_idx ∧ img_idx < images.length then
                match processEntries images rest with
                | .error e => .error e
                | .ok tail => .ok (((images.getD img_idx.toNat ("", [])).1, mkMultiResult kvs) :: tail)
              else
                processEntries images rest
      | v =>
          .error (.attributeError ("\x27" ++ pyTypeName v ++
            "\x27 object has no attribute \x27get\x27"))

/-- Sort key of `_parse_multi_response` (src/rust_analyzer.py line 276):
the entry's `rank` if truthy, else the sentinel 999. -/
def multiSortKey (p : String × RustAnalysisResult) : Json :=
  if pyTruthyOpt p.2.rank then (p.2.rank.getD .null) else .int 999

/-- `RustAnalyzer._parse_multi_response` (src/rust_analyzer.py lines
235-281) applied to the decode outcome of the raw response text.  Its
`except (json.JSONDecodeError, KeyError, IndexError)` falls back to the
per-image analysis; of those, only the decode error (`none`) can occur,
since `.get` never raises `KeyError` and indexing is bounds-checked.
`AttributeError`/`TypeError` from the loop or the sort propagate. -/
def parse_multi_response (api : VisionAPI) (decoded : Option Json)
    (images : List (String × Bytes)) : Except PyErr (List (String × RustAnalysisResult)) :=
  match decoded with
  | none => fallback_individual_analysis api images PARSE_FAIL_MSG
  | some j =>
      match pyIter j with
      | .error e => .error e
      | .ok data_list =>
          match processEntries images data_list with
          | .error e => .error e
          | .ok results => pySortByKey multiSortKey false results

/-- `RustAnalyzer.analyze_multiple` (src/rust_analyzer.py lines 207-233):
one image delegates to `analyze` and forces `rank = 1` (also on non-rod
results); otherwise call the joint comparison once and parse, and let
`except Exception` route any raised error to the fallback.  An error
raised by the fallback itself (called from the handler) propagates. -/
def analyze_multiple (api : VisionAPI) (images : List (String × Bytes)) :
    Except PyErr (List (String × RustAnalysisResult)) :=
  match images with
  | [(filename, image_data)] =>
      let result := analyze api image_data
      .ok [(filename, { result with rank := some (.int 1) })]
  | _ =>
      match api.analyze_multiple_images (images.map (·.2))
        (MULTI_COMPARISON_PROMPT images.length) with
      | .error e => fallback_individual_analysis api images e.str
      | .ok decoded =>
          match parse_multi_response api decoded images with
          | .ok results => .ok results
          | .error e => fallback_individual_analysis api images e.str

/-! ### Derived key functions and well-formedness predicates

Integer views of the two sort keys (valid exactly when the keys are
numeric), and the well-formedness checks the claims quantify over. -/

/-- Integer value of `fallbackSortKey` when every score is an int or
missing: `-1` for non-rod, else the score with missing treated as 0. -/
def fallbackKeyInt (p : String × RustAnalysisResult) : Int :=
  if p.2.is_metal_rod = false then -1
  else match p.2.rust_score with
    | some (.int n) => n
    | _ => 0

/-- Integer value of `multiSortKey` when every rank is an int or
missing/falsy: the rank, with missing treated as the sentinel 999. -/
def multiKeyInt (p : String × RustAnalysisResult) : Int :=
  if pyTruthyOpt p.2.rank then
    match p.2.rank with
    | some (.int r) => r
    | _ => 0
  else 999

/-- Check that a result's `rust_score` is an integer, `null`, or absent
(the shape the data contract declares). -/
def scoreIntOk (r : RustAnalysisResult) : Bool :=
  match r.rust_score with
  | none => true
  | some .null => true
  | some (.int _) => true
  | some _ => false

/-- Check that a result's `rust_score` is absent/`null` or an integer in
the declared range 0..100. -/
def scoreInRange (r : RustAnalysisResult) : Bool :=
  match r.rust_score with
  | none => true
  | some .null => true
  | some (.int n) => decide (0 ≤ n) && decide (n ≤ 100)
  | some _ => false

/-- An output pair whose `rank` field is falsy (missing in the sense of
line 276 of the source: `x[1].rank if x[1].rank else 999`). -/
def rankMissing (p : String × RustAnalysisResult) : Bool :=
  !(pyTruthyOpt p.2.rank)

/-- An output pair carrying a valid rank: an integer at least 1 and below
the sentinel 999. -/
def rankValid (p : String × RustAnalysisResult) : Bool :=
  match p.2.rank with
  | some (.int r) => decide (1 ≤ r) && decide (r < 999)
  | _ => false

/-- The `image_index` an array entry carries, as an integer (0 when the
entry is not of that shape). -/
def entryIndex (e : Json) : Int :=
  match e with
  | .obj kvs =>
      match dictGet kvs "image_index" with
      | some (.int i) => i
      | _ => 0
  | _ => 0

/-- The `rank` an array entry carries, as an integer (0 when the entry is
not of that shape). -/
def entryRank (e : Json) : Int :=
  match e with
  | .obj kvs =>
      match dictGet kvs "rank" with
      | some (.int r) => r
      | _ => 0
  | _ => 0

/-- Well-formedness of a multi-comparison array entry for a batch of `n`
images: an object carrying an integer `image_index` in 1..n and an
integer `rank` at least 1. -/
def entryWf (n : Nat) : Json → Bool
  | .obj kvs =>
      (match dictGet kvs "image_index" with
       | some (.int i) => decide (1 ≤ i) && decide (i ≤ (n : Int))
       | _ => false) &&
      (match dictGet kvs "rank" with
       | some (.int r) => decide (1 ≤ r)
       | _ => false)
  | _ => false

/-- The pair the entry loop builds from a well-formed array entry: the
identifier at position `image_index - 1` of the original image list,
with the constructed result. -/
def mkEntryPair (images : List (String × Bytes)) (e : Json) : String × RustAnalysisResult :=
  match e with
  | .obj kvs => ((images.getD (entryIndex e - 1).toNat ("", [])).1, mkMultiResult kvs)
  | _ => ("", { is_metal_rod := false })

/-! ### Concrete instances used by the witnesses and counterexamples -/

/-- Collaborator never actually consulted by the purely parsing claims. -/
def apiUnused : VisionAPI :=
  { analyze_image := fun _ _ => .error (.exc "unused")
    analyze_multiple_images := fun _ _ => .error (.exc "unused") }

/-- Collaborator classifying every image as not a metal rod. -/
def apiNonRod : VisionAPI :=
  { analyze_image := fun _ _ => .ok (some (.obj [("is_metal_rod", .bool false)]))
    analyze_multiple_images := fun _ _ => .error (.exc "unused") }

/-- Collaborator whose joint call raises and whose per-image responses
give image `[1]` a string `rust_score` and every other image an integer
score: the fallback sort then compares `str` with `int`. -/
def apiMixedScore : VisionAPI :=
  { analyze_image := fun b _ =>
      if b = [1] then
        .ok (some (.obj [("is_metal_rod", .bool true), ("rust_score", .str "high")]))
      else
        .ok (some (.obj [("is_metal_rod", .bool true), ("rust_score", .int 50)]))
    analyze_multiple_images := fun _ _ => .error (.exc "transport error") }

/-- Collaborator whose joint call raises and whose per-image responses
score image `[1]` 30, images `[2]` and `[4]` 85 (a tie), and classify
image `[3]` as not a rod. -/
def apiFallbackDemo : VisionAPI :=
  { analyze_image := fun b _ =>
      if b = [1] then
        .ok (some (.obj [("is_metal_rod", .bool true), ("rust_score", .int 30)]))
      else if b = [3] then
        .ok (some (.obj [("is_metal_rod", .bool false), ("rust_score", .int 99)]))
      else
        .ok (some (.obj [("is_metal_rod", .bool true), ("rust_score", .int 85)]))
    analyze_multiple_images := fun _ _ => .error (.exc "transport error") }

/-- A well-formed multi-comparison entry carrying the given
`image_index`, `rank` and `rust_score`. -/
def demoEntry (i r sc : Int) : Json :=
  .obj [("image_index", .int i), ("rank", .int r), ("rust_score", .int sc)]

/-- Collaborator whose joint response fails JSON decoding
(`json.JSONDecodeError` in the multi parser) and whose per-image
responses carry integer scores. -/
def apiDecodeFail : VisionAPI :=
  { analyze_image := fun _ _ =>
      .ok (some (.obj [("is_metal_rod", .bool true), ("rust_score", .int 40)]))
    analyze_multiple_images := fun _ _ => .ok none }

/-- Collaborator whose joint response decodes to a bare number, so the
multi parser raises `TypeError` iterating it (a structural failure not
caught inside the parser). -/
def apiStructFail : VisionAPI :=
  { analyze_image := fun _ _ =>
      .ok (some (.obj [("is_metal_rod", .bool true), ("rust_score", .int 40)]))
    analyze_multiple_images := fun _ _ => .ok (some (.int 5)) }

/-! ### Recovery of the combined percentage range string

The single parser renders the `rust_percentage_min`/`max` pair as the
display string `f"{min}~{max}%"`.  The functions below recover the pair
from that string, witnessing that the formatting is lossless. -/

/-- Fold decimal digit characters into a number; `none` on a non-digit. -/
def digitsToNatAux : List Char → Nat → Option Nat
  | [], acc => some acc
  | c :: cs, acc =>
      if c.isDigit then digitsToNatAux cs (10 * acc + (c.toNat - 48)) else none

/-- Parse a non-empty list of decimal digits. -/
def digitsToNat? : List Char → Option Nat
  | [] => none
  | c :: cs => digitsToNatAux (c :: cs) 0

/-- Split a character list at its first `~`; `none` when there is
none. -/
def splitTilde : List Char → Option (List Char × List Char)
  | [] => none
  | c :: cs =>
      if c = '~' then some ([], cs)
      else
        match splitTilde cs with
        | none => none
        | some (a, b) => some (c :: a, b)

/-- Recover the percentage pair from the combined `min~max%` string:
split at the first `~`, parse the left part as the minimum, strip the
trailing `%` and parse the rest as the maximum. -/
def recoverRange (s : String) : Option (Nat × Nat) :=
  match splitTilde s.toList with
  | none => none
  | some (a, b) =>
      match b.reverse with
      | '%' :: rb =>
          match digitsToNat? a, digitsToNat? rb.reverse with
          | some mn, some mx => some (mn, mx)
          | _, _ => none
      | _ => none

/-- Reference digit expansion of a natural number, mirroring what
`Nat.toDigitsCore` computes. -/
def digitsRep (n : Nat) : List Char :=
  if n < 10 then [Nat.digitChar n]
  else digitsRep (n / 10) ++ [Nat.digitChar (n % 10)]
decreasing_by exact Nat.div_lt_self (by omega) (by omega)

/-! ### Sorting lemmas

Facts about the `list.sort` model: a successful sort permutes its input;
when the comparator never raises it agrees with the pure insertion sort
`sortB`, which is sorted and stable for integer-valued keys. -/

theorem pyInsertCmp_ok_perm {α : Type} {cmp : α → α → Except PyErr Bool} {x : α} :
    ∀ {l r : List α}, pyInsertCmp cmp x l = .ok r → r.Perm (x :: l)
  | [], r, h => by
      simp only [pyInsertCmp, Except.ok.injEq] at h
      subst h
      exact List.Perm.refl _
  | y :: ys, r, h => by
      simp only [pyInsertCmp] at h
      split at h
      · exact absurd h (by simp)
      · simp only [Except.ok.injEq] at h
        subst h
        exact List.Perm.refl _
      · split at h
        · exact absurd h (by simp)
        · rename_i r2 hr
          simp only [Except.ok.injEq] at h
          subst h
          exact (List.Perm.cons y (pyInsertCmp_ok_perm hr)).trans (List.Perm.swap x y ys)

theorem pySortCmpAux_ok_perm {α : Type} {cmp : α → α → Except PyErr Bool} :
    ∀ {l acc r : List α}, pySortCmpAux cmp acc l = .ok r → r.Perm (acc ++ l)
  | [], acc, r, h => by
      simp only [pySortCmpAux, Except.ok.injEq] at h
      subst h
      simp
  | x :: xs, acc, r, h => by
      simp only [pySortCmpAux] at h
      split at h
      · exact absurd h (by simp)
      · rename_i acc2 hacc2
        have h1 := pySortCmpAux_ok_perm h
        have h2 := pyInsertCmp_ok_perm hacc2
        exact h1.trans ((h2.append_right xs).trans List.perm_middle.symm)

theorem insB_perm {α : Type} (p : α → α → Bool) (x : α) :
    ∀ l : List α, (insB p x l).Perm (x :: l)
  | [] => List.Perm.refl _
  | y :: ys => by
      simp only [insB]
      split
      · exact List.Perm.refl _
      · exact (List.Perm.cons y (insB_perm p x ys)).trans (List.Perm.swap x y ys)

theorem mem_insB {α : Type} {p : α → α → Bool} {x z : α} {l : List α} :
    z ∈ insB p x l ↔ z = x ∨ z ∈ l := by
  rw [(insB_perm p x l).mem_iff, List.mem_cons]

theorem pyInsertCmp_agree {α : Type} {cmp : α → α → Except PyErr Bool} {p : α → α → Bool}
    {x : α} : ∀ {l : List α}, (∀ y ∈ l, cmp x y = .ok (p x y)) →
    pyInsertCmp cmp x l = .ok (insB p x l)
  | [], _ => rfl
  | y :: ys, h => by
      have hy := h y (List.mem_cons_self y ys)
      have hys : ∀ z ∈ ys, cmp x z = .ok (p x z) := fun z hz => h z (List.mem_cons_of_mem y hz)
      simp only [pyInsertCmp, insB, hy]
      cases hp : p x y with
      | true => simp
      | false => simp [pyInsertCmp_agree hys]

theorem pySortCmpAux_agree {α : Type} {cmp : α → α → Except PyErr Bool} {p : α → α → Bool} :
    ∀ {l acc : List α}, (∀ x ∈ l, ∀ y, (y ∈ acc ∨ y ∈ l) → cmp x y = .ok (p x y)) →
    pySortCmpAux cmp acc l = .ok (sortB p acc l)
  | [], acc, _ => rfl
  | x :: xs, acc, h => by
      have hx : ∀ y ∈ acc, cmp x y = .ok (p x y) := fun y hy =>
        h x (List.mem_cons_self x xs) y (Or.inl hy)
      have hrec : ∀ z ∈ xs, ∀ y, (y ∈ insB p x acc ∨ y ∈ xs) → cmp z y = .ok (p z y) := by
        intro z hz y hy
        refine h z (List.mem_cons_of_mem x hz) y ?_
        rcases hy with hy | hy
        · rcases mem_insB.mp hy with rfl | hy
          · exact Or.inr (List.mem_cons_self y xs)
          · exact Or.inl hy
        · exact Or.inr (List.mem_cons_of_mem x hy)
      simp only [pySortCmpAux, sortB, pyInsertCmp_agree hx]
      exact pySortCmpAux_agree hrec

theorem insB_sorted {α : Type} {p : α → α → Bool} {f : α → Int}
    (hpf : ∀ a b, p a b = true ↔ f a < f b) {x : α} :
    ∀ {l : List α}, l.Pairwise (fun a b => f a ≤ f b) →
    (insB p x l).Pairwise (fun a b => f a ≤ f b)
  | [], _ => List.pairwise_singleton _ x
  | y :: ys, hl => by
      rcases List.pairwise_cons.mp hl with ⟨hy, hys⟩
      simp only [insB]
      cases hp : p x y with
      | true =>
          have hxy : f x < f y := (hpf x y).mp hp
          refine List.pairwise_cons.mpr ⟨?_, hl⟩
          intro z hz
          rcases List.mem_cons.mp hz with rfl | hz
          · exact le_of_lt hxy
          · exact le_trans (le_of_lt hxy) (hy z hz)
      | false =>
          have hyx : f y ≤ f x := by
            have := (hpf x y).not.mp (by simp [hp])
            omega
          refine List.pairwise_cons.mpr ⟨?_, insB_sorted hpf hys⟩
          intro z hz
          rcases mem_insB.mp hz with rfl | hz
          · exact hyx
          · exact hy z hz

theorem sortB_sorted {α : Type} {p : α → α → Bool} {f : α → Int}
    (hpf : ∀ a b, p a b = true ↔ f a < f b) :
    ∀ {l acc : List α}, acc.Pairwise (fun a b => f a ≤ f b) →
    (sortB p acc l).Pairwise (fun a b => f a ≤ f b)
  | [], acc, hacc => hacc
  | x :: xs, acc, hacc => by
      simp only [sortB]
      exact sortB_sorted hpf (insB_sorted hpf hacc)

theorem sortB_perm {α : Type} (p : α → α → Bool) :
    ∀ (l acc : List α), (sortB p acc l).Perm (acc ++ l)
  | [], acc => by simp [sortB]
  | x :: xs, acc => by
      simp only [sortB]
      exact (sortB_perm p xs (insB p x acc)).trans
        (((insB_perm p x acc).append_right xs).trans List.perm_middle.symm)

theorem filter_eq_nil_of_sorted_gt {α : Type} {f : α → Int} {c : Int} {y : α} {ys : List α}
    (hsorted : (y :: ys).Pairwise (fun a b => f a ≤ f b)) (hy : c < f y) :
    (y :: ys).filter (fun a => decide (f a = c)) = [] := by
  rw [List.filter_eq_nil_iff]
  intro a ha
  rcases List.mem_cons.mp ha with rfl | ha
  · simp; omega
  · have := (List.pairwise_cons.mp hsorted).1 a ha
    simp; omega

theorem insB_filter_stable {α : Type} {p : α → α → Bool} {f : α → Int}
    (hpf : ∀ a b, p a b = true ↔ f a < f b) {x : α} {c : Int} :
    ∀ {l : List α}, l.Pairwise (fun a b => f a ≤ f b) →
    (insB p x l).filter (fun a => decide (f a = c)) =
      l.filter (fun a => decide (f a = c)) ++
        (if f x = c then [x] else []) := by
  intro l
  induction l with
  | nil =>
      intro _
      by_cases hc : f x = c <;> simp [insB, hc]
  | cons y ys ih =>
      intro hl
      rcases List.pairwise_cons.mp hl with ⟨hy, hys⟩
      simp only [insB]
      cases hp : p x y with
      | true =>
          have hxy : f x < f y := (hpf x y).mp hp
          by_cases hc : f x = c
          · have hnil : (y :: ys).filter (fun a => decide (f a = c)) = [] :=
              filter_eq_nil_of_sorted_gt hl (by omega)
            rw [if_pos rfl, List.filter_cons, hnil]
            simp [hc]
          · rw [if_pos rfl, List.filter_cons]
            simp [hc]
      | false =>
          have := ih hys
          rw [if_neg (by simp), List.filter_cons]
          by_cases hyc : f y = c <;> simp [hyc, this]

theorem sortB_filter_stable {α : Type} {p : α → α → Bool} {f : α → Int}
    (hpf : ∀ a b, p a b = true ↔ f a < f b) {c : Int} :
    ∀ {l acc : List α}, acc.Pairwise (fun a b => f a ≤ f b) →
    (sortB p acc l).filter (fun a => decide (f a = c)) =
      acc.filter (fun a => decide (f a = c)) ++ l.filter (fun a => decide (f a = c))
  | [], acc, hacc => by simp [sortB]
  | x :: xs, acc, hacc => by
      simp only [sortB]
      rw [sortB_filter_stable hpf (insB_sorted hpf hacc), insB_filter_stable hpf hacc]
      by_cases hc : f x = c <;> simp [List.filter_cons, hc]
  termination_by l => l.length

/-- Python `<` on two ints never raises and is the integer order. -/
theorem pyLt_int (a b : Int) : pyLt (.int a) (.int b) = .ok (decide (a < b)) := by
  simp only [pyLt, pyCmp, intCmp]
  by_cases h1 : a < b
  · rw [if_pos h1, decide_eq_true h1]
    rfl
  · rw [decide_eq_false h1, if_neg h1]
    by_cases h2 : a = b
    · rw [if_pos h2]
      rfl
    · rw [if_neg h2]
      rfl

/-- An ascending `list.sort(key=...)` whose keys are all integers never
raises and agrees with the pure stable insertion sort on the integer
keys. -/
theorem pySortByKey_asc_ok {α : Type} {k : α → Json} {ki : α → Int} {l : List α}
    (hk : ∀ x ∈ l, k x = .int (ki x)) :
    pySortByKey k false l = .ok (sortB (fun x y => decide (ki x < ki y)) [] l) := by
  refine pySortCmpAux_agree ?_
  intro x hx y hy
  rcases hy with hy | hy
  · exact absurd hy (List.not_mem_nil y)
  · simp [hk x hx, hk y hy, pyLt_int]

/-- A descending (`reverse=True`) `list.sort(key=...)` whose keys are all
integers never raises and agrees with the pure stable insertion sort on
the flipped integer keys. -/
theorem pySortByKey_desc_ok {α : Type} {k : α → Json} {ki : α → Int} {l : List α}
    (hk : ∀ x ∈ l, k x = .int (ki x)) :
    pySortByKey k true l = .ok (sortB (fun x y => decide (ki y < ki x)) [] l) := by
  refine pySortCmpAux_agree ?_
  intro x hx y hy
  rcases hy with hy | hy
  · exact absurd hy (List.not_mem_nil y)
  · simp [hk x hx, hk y hy, pyLt_int]

/-- The ascending comparator on keys `ki` is the strict order of `ki`. -/
theorem asc_hpf {α : Type} (ki : α → Int) :
    ∀ a b : α, (decide (ki a < ki b)) = true ↔ ki a < ki b := by
  intro a b
  exact decide_eq_true_iff

/-- The descending comparator on keys `ki` is the strict order of the
negated keys. -/
theorem desc_hpf {α : Type} (ki : α → Int) :
    ∀ a b : α, (decide (ki b < ki a)) = true ↔ (-(ki a)) < (-(ki b)) := by
  intro a b
  rw [decide_eq_true_iff]
  omega

/-! ### Shape lemmas about the parsers and the fallback -/

/-- Every pair built by the entry loop carries the literal
`is_metal_rod=True` of the result constructor. -/
theorem processEntries_rod {images : List (String × Bytes)} :
    ∀ {entries : List Json} {results}, processEntries images entries = .ok results →
    ∀ p ∈ results, p.2.is_metal_rod = true
  | [], results, h => by
      simp only [processEntries, Except.ok.injEq] at h
      subst h
      intro p hp
      exact absurd hp (List.not_mem_nil p)
  | e :: rest, results, h => by
      simp only [processEntries] at h
      split at h
      · rename_i kvs
        split at h
        · exact absurd h (by simp)
        · rename_i idx hidx
          split at h
          · split at h
            · exact absurd h (by simp)
            · rename_i tail htail
              simp only [Except.ok.injEq] at h
              subst h
              intro p hp
              rcases List.mem_cons.mp hp with rfl | hp
              · rfl
              · exact processEntries_rod htail p hp
          · exact processEntries_rod h
      · exact absurd h (by simp)

/-- A single-image parse that returns a non-rod result leaves
`rust_grade`, `rust_score` and `rank` at their `None` defaults and sets
an error message. -/
theorem parse_single_false_shape {d : Option Json} {r : RustAnalysisResult}
    (h : parse_single_response d = .ok r) (hf : r.is_metal_rod = false) :
    r.rust_grade = none ∧ r.rust_score = none ∧ r.rank = none ∧ r.error_message ≠ none := by
  rcases d with _ | j
  · simp only [parse_single_response, Except.ok.injEq] at h
    subst h
    simp
  · cases j with
    | obj kvs =>
        simp only [parse_single_response] at h
        split at h
        · simp only [Except.ok.injEq] at h
          subst h
          simp
        · simp only [Except.ok.injEq] at h
          subst h
          simp [mkSingleResult] at hf
    | null => exact absurd h (by simp [parse_single_response])
    | bool b => exact absurd h (by simp [parse_single_response])
    | int n => exact absurd h (by simp [parse_single_response])
    | str s => exact absurd h (by simp [parse_single_response])
    | arr xs => exact absurd h (by simp [parse_single_response])

/-- `analyze` returning a non-rod result leaves `rust_grade`,
`rust_score` and `rank` at `None` and sets an error message. -/
theorem analyze_false_shape (api : VisionAPI) (img : Bytes)
    (hf : (analyze api img).is_metal_rod = false) :
    (analyze api img).rust_grade = none ∧ (analyze api img).rust_score = none ∧
    (analyze api img).rank = none ∧ (analyze api img).error_message ≠ none := by
  cases hapi : api.analyze_image img SINGLE_ANALYSIS_PROMPT with
  | error e => simp [analyze, hapi]
  | ok d =>
      cases hp : parse_single_response d with
      | error e2 => simp [analyze, hapi, hp]
      | ok r =>
          simp only [analyze, hapi, hp] at hf ⊢
          exact parse_single_false_shape hp hf

/-- Membership in a rank-assigned list: the pair is one of the sorted
pairs with only its `rank` field overwritten. -/
theorem mem_assignRanks :
    ∀ {l : List (String × RustAnalysisResult)} {s : Int} {p},
    p ∈ assignRanks s l → ∃ q ∈ l, ∃ k : Int, p = (q.1, { q.2 with rank := some (.int k) })
  | [], s, p, h => absurd h (List.not_mem_nil p)
  | q :: qs, s, p, h => by
      rcases List.mem_cons.mp h with rfl | h
      · exact ⟨q, List.mem_cons_self q qs, s, rfl⟩
      · rcases mem_assignRanks h with ⟨q2, hq2, k, rfl⟩
        exact ⟨q2, List.mem_cons_of_mem q hq2, k, rfl⟩

/-- Every pair of a successful fallback output is one of the per-image
`analyze` results with only the `rank` field overwritten. -/
theorem fallback_shape {api : VisionAPI} {images : List (String × Bytes)} {msg : String}
    {out : List (String × RustAnalysisResult)}
    (h : fallback_individual_analysis api images msg = .ok out) :
    ∀ p ∈ out, ∃ b : Bytes, ∃ k : Int,
      p.2 = { analyze api b with rank := some (.int k) } := by
  simp only [fallback_individual_analysis] at h
  split at h
  · exact absurd h (by simp)
  · rename_i sorted hsorted
    simp only [Except.ok.injEq] at h
    subst h
    intro p hp
    rcases mem_assignRanks hp with ⟨q, hq, k, rfl⟩
    have hperm : sorted.Perm (images.map (fun p => (p.1, analyze api p.2))) := by
      have := pySortCmpAux_ok_perm hsorted
      simpa using this
    have hq2 := hperm.mem_iff.mp hq
    rcases List.mem_map.mp hq2 with ⟨pr, _, rfl⟩
    exact ⟨pr.2, k, rfl⟩

/-- The fallback sort key is the integer `fallbackKeyInt` whenever the
result's score has the declared int-or-missing shape. -/
theorem fallbackSortKey_int {p : String × RustAnalysisResult}
    (hsc : scoreIntOk p.2 = true) : fallbackSortKey p = .int (fallbackKeyInt p) := by
  rcases p with ⟨f, r⟩
  cases hrod : r.is_metal_rod with
  | false => simp [fallbackSortKey, fallbackKeyInt, hrod]
  | true =>
      simp only [fallbackSortKey, fallbackKeyInt, hrod]
      cases hs : r.rust_score with
      | none => simp
      | some v =>
          cases v with
          | null => simp [Json.truthy]
          | int n =>
              by_cases hn : n = 0
              · simp [Json.truthy, hn]
              · simp [Json.truthy, hn]
          | bool b => simp [scoreIntOk, hs] at hsc
          | str s => simp [scoreIntOk, hs] at hsc
          | arr xs => simp [scoreIntOk, hs] at hsc
          | obj kvs => simp [scoreIntOk, hs] at hsc

/-- When every per-image `analyze` result has an int-or-missing score,
the fallback never raises and computes the stable descending insertion
sort of the per-image results followed by rank assignment. -/
theorem fallback_ok {api : VisionAPI} {images : List (String × Bytes)}
    (hsc : ∀ pr ∈ images, scoreIntOk (analyze api pr.2) = true) (msg : String) :
    fallback_individual_analysis api images msg =
      .ok (assignRanks 1 (sortB (fun x y => decide (fallbackKeyInt y < fallbackKeyInt x)) []
        (images.map (fun p => (p.1, analyze api p.2))))) := by
  have hk : ∀ x ∈ images.map (fun p => (p.1, analyze api p.2)),
      fallbackSortKey x = .int (fallbackKeyInt x) := by
    intro x hx
    rcases List.mem_map.mp hx with ⟨pr, hpr, rfl⟩
    exact fallbackSortKey_int (hsc pr hpr)
  simp only [fallback_individual_analysis, pySortByKey_desc_ok hk]

/-- Every pair the multi-response parser returns on a successfully
decoded payload (the comparative route, not the fallback) has
`is_metal_rod = true`. -/
theorem parse_multi_some_rod {api : VisionAPI} {j : Json} {images : List (String × Bytes)}
    {out : List (String × RustAnalysisResult)}
    (h : parse_multi_response api (some j) images = .ok out) :
    ∀ p ∈ out, p.2.is_metal_rod = true := by
  simp only [parse_multi_response] at h
  cases hit : pyIter j with
  | error e =>
      simp only [hit] at h
      exact absurd h (by simp)
  | ok data_list =>
      simp only [hit] at h
      cases hpe : processEntries images data_list with
      | error e =>
          simp only [hpe] at h
          exact absurd h (by simp)
      | ok results =>
          simp only [hpe] at h
          simp only [pySortByKey] at h
          have hperm : out.Perm results := by
            have := pySortCmpAux_ok_perm h
            simpa using this
          intro p hp
          exact processEntries_rod hpe p (hperm.mem_iff.mp hp)

/-! ### Claim C9 -/

/-- C9: every pair returned by the comparative multi-response parser on a
successfully decoded payload has `is_metal_rod = true` — the comparative
path cannot produce a not-a-metal-rod classification, whatever the
entries contain. -/
theorem claim_C9 (api : VisionAPI) (j : Json) (images : List (String × Bytes))
    (out : List (String × RustAnalysisResult))
    (h : parse_multi_response api (some j) images = .ok out) :
    ∀ p ∈ out, p.2.is_metal_rod = true :=
  parse_multi_some_rod h

/-- Witness for C9 at a concrete one-entry payload. -/
theorem claim_C9_witness :
    (mkMultiResult [("image_index", Json.int 1)]).is_metal_rod = true := by
  have := claim_C9 apiUnused (.arr [.obj [("image_index", .int 1)]]) [("a", [0])]
    [("a", mkMultiResult [("image_index", Json.int 1)])] rfl
  exact this ("a", mkMultiResult [("image_index", Json.int 1)]) (by simp)

/-! ### Claim C10 -/

/-- C10: an array entry without an `image_index` key is not discarded: it
defaults to index 1, so the pair it contributes is attributed to the
first image of a non-empty original list. -/
theorem claim_C10 (images : List (String × Bytes)) (kvs : List (String × Json))
    (rest : List Json) (hidx : dictGet kvs "image_index" = none) (hne : 0 < images.length) :
    processEntries images (Json.obj kvs :: rest) =
      Except.map (fun tail => ((images.getD 0 ("", [])).1, mkMultiResult kvs) :: tail)
        (processEntries images rest) := by
  simp only [processEntries, dictGetD, hidx, Option.getD, pySubOne]
  norm_num
  rw [if_pos hne]
  cases processEntries images rest <;> simp [Except.map]

/-- Witness for C10: a rank-only entry lands on the first of two
images. -/
theorem claim_C10_witness :
    processEntries [("a", [0]), ("b", [1])] [Json.obj [("rank", Json.int 2)]] =
      .ok [("a", mkMultiResult [("rank", Json.int 2)])] := by
  have := claim_C10 [("a", [0]), ("b", [1])] [("rank", Json.int 2)] [] rfl (by decide)
  simpa using this

/-! ### Claim C6 -/

/-- C6: an array entry whose integer `image_index` resolves (as
`image_index - 1`) outside the bounds of the original image list is
silently dropped: the entry loop and the whole parse behave exactly as
if the entry were absent, and processing it raises nothing. -/
theorem claim_C6 (api : VisionAPI) (images : List (String × Bytes))
    (kvs : List (String × Json)) (i : Int) (pre post : List Json)
    (hidx : dictGet kvs "image_index" = some (.int i))
    (hout : i - 1 < 0 ∨ (images.length : Int) ≤ i - 1) :
    processEntries images (pre ++ Json.obj kvs :: post) =
      processEntries images (pre ++ post) ∧
    parse_multi_response api (some (.arr (pre ++ Json.obj kvs :: post))) images =
      parse_multi_response api (some (.arr (pre ++ post))) images := by
  have hmain : ∀ pre2 : List Json, processEntries images (pre2 ++ Json.obj kvs :: post) =
      processEntries images (pre2 ++ post) := by
    intro pre2
    induction pre2 with
    | nil =>
        simp only [List.nil_append, processEntries, dictGetD, hidx, Option.getD, pySubOne]
        rw [if_neg (by rintro ⟨h1, h2⟩; omega)]
    | cons p pre2 ih =>
        cases p with
        | obj kvs2 =>
            simp only [List.cons_append, processEntries]
            cases hsub : pySubOne (dictGetD kvs2 "image_index" (.int 1)) with
            | error e => rfl
            | ok idx =>
                dsimp only
                simp only [List.append_eq]
                by_cases hg : 0 ≤ idx ∧ idx < (images.length : Int)
                · rw [if_pos hg, if_pos hg, ih]
                · rw [if_neg hg, if_neg hg]
                  exact ih
        | null => rfl
        | bool b => rfl
        | int n => rfl
        | str s => rfl
        | arr xs => rfl
  refine ⟨hmain pre, ?_⟩
  simp only [parse_multi_response, pyIter, hmain pre]

/-- Witness for C6: an `image_index` of 5 against a two-image list
leaves the parse equal to the parse without that entry. -/
theorem claim_C6_witness :
    processEntries [("a", [0]), ("b", [1])] [demoEntry 5 1 50, demoEntry 1 2 40] =
      processEntries [("a", [0]), ("b", [1])] [demoEntry 1 2 40] := by
  have := claim_C6 apiUnused [("a", [0]), ("b", [1])]
    [("image_index", Json.int 5), ("rank", Json.int 1), ("rust_score", Json.int 50)]
    5 [] [demoEntry 1 2 40] rfl (by norm_num)
  exact this.1

/-! ### Claim C2 -/

/-- C2 counterexample: the raw text `"42"` decodes successfully (to the
number 42, not an object), and `_parse_single_response` then raises
`AttributeError` instead of returning an error result — refuting the
claim that a payload that is not decodable as a JSON object always
yields an `is_metal_rod=false` result without raising. -/
theorem claim_C2_counterexample :
    parse_single_response (some (.int 42)) =
      .error (.attributeError "\x27int\x27 object has no attribute \x27get\x27") := rfl

/-- C2 as amended: the parser returns an `is_metal_rod=false` result with
a non-null `error_message`, without raising, when the payload fails JSON
decoding or decodes to an object whose `is_metal_rod` field is falsy or
absent; an object payload never raises (truthy flag gives the parsed
result); but a payload decoding to a non-object value raises
`AttributeError` (caught upstream by `analyze`). -/
theorem claim_C2_amended :
    (parse_single_response none =
        .ok { is_metal_rod := false, error_message := some PARSE_FAIL_MSG } ∧
      (some PARSE_FAIL_MSG ≠ (none : Option String))) ∧
    (∀ kvs : List (String × Json),
      (dictGetD kvs "is_metal_rod" (.bool false)).truthy = false →
      parse_single_response (some (.obj kvs)) =
        .ok { is_metal_rod := false, error_message := some NOT_METAL_ROD_MSG } ∧
      (some NOT_METAL_ROD_MSG ≠ (none : Option String))) ∧
    (∀ kvs : List (String × Json),
      (dictGetD kvs "is_metal_rod" (.bool false)).truthy = true →
      parse_single_response (some (.obj kvs)) = .ok (mkSingleResult kvs)) := by
  refine ⟨⟨rfl, by simp⟩, ?_, ?_⟩
  · intro kvs h
    exact ⟨by simp [parse_single_response, h], by simp⟩
  · intro kvs h
    simp [parse_single_response, h]

/-- Witness for the amended C2 at a concrete falsy-flag object. -/
theorem claim_C2_witness :
    parse_single_response (some (.obj [("is_metal_rod", Json.bool false)])) =
      .ok { is_metal_rod := false, error_message := some NOT_METAL_ROD_MSG } ∧
    (some NOT_METAL_ROD_MSG ≠ (none : Option String)) :=
  claim_C2_amended.2.1 [("is_metal_rod", Json.bool false)] rfl

/-! ### Claim C1 -/

/-- The multi-image branch of `analyze_multiple` returns either the
fallback's output or the multi-response parser's output. -/
theorem analyze_multi_branch {api : VisionAPI} {images : List (String × Bytes)}
    {out : List (String × RustAnalysisResult)}
    (hok : (match api.analyze_multiple_images (images.map (fun p => p.2))
              (MULTI_COMPARISON_PROMPT images.length) with
            | .error e => fallback_individual_analysis api images e.str
            | .ok decoded =>
                match parse_multi_response api decoded images with
                | .ok results => .ok results
                | .error e => fallback_individual_analysis api images e.str) = .ok out) :
    (∃ msg, fallback_individual_analysis api images msg = .ok out) ∨
    (∃ d, parse_multi_response api d images = .ok out) := by
  cases hj : api.analyze_multiple_images (images.map (fun p => p.2))
      (MULTI_COMPARISON_PROMPT images.length) with
  | error e =>
      simp only [hj] at hok
      exact Or.inl ⟨e.str, hok⟩
  | ok d =>
      simp only [hj] at hok
      cases hp : parse_multi_response api d images with
      | ok results =>
          simp only [hp, Except.ok.injEq] at hok
          subst hok
          exact Or.inr ⟨d, hp⟩
      | error e =>
          simp only [hp] at hok
          exact Or.inl ⟨e.str, hok⟩

/-- A non-rod pair in an output that came from the fallback or from the
multi-response parser keeps `rust_grade` and `rust_score` at `None` and
carries an error message. -/
theorem multi_out_false_shape {api : VisionAPI} {images : List (String × Bytes)}
    {out : List (String × RustAnalysisResult)}
    (h : (∃ msg, fallback_individual_analysis api images msg = .ok out) ∨
         (∃ d, parse_multi_response api d images = .ok out)) :
    ∀ p ∈ out, p.2.is_metal_rod = false →
      p.2.rust_grade = none ∧ p.2.rust_score = none ∧ p.2.error_message ≠ none := by
  have hfb : ∀ msg, fallback_individual_analysis api images msg = .ok out →
      ∀ p ∈ out, p.2.is_metal_rod = false →
        p.2.rust_grade = none ∧ p.2.rust_score = none ∧ p.2.error_message ≠ none := by
    intro msg hok p hp hfalse
    rcases fallback_shape hok p hp with ⟨b, k, hpb⟩
    rw [hpb] at hfalse ⊢
    have hshape := analyze_false_shape api b hfalse
    exact ⟨hshape.1, hshape.2.1, hshape.2.2.2⟩
  rcases h with ⟨msg, hok⟩ | ⟨d, hok⟩
  · exact hfb msg hok
  · rcases d with _ | j
    · exact hfb PARSE_FAIL_MSG hok
    · intro p hp hfalse
      have := parse_multi_some_rod hok p hp
      rw [this] at hfalse
      exact absurd hfalse (by simp)

/-- C1 counterexample: a single-image batch whose image is classified as
not a metal rod still gets `rank = 1` forced by `analyze_multiple`, so an
`is_metal_rod=false` result can carry a non-null `rank`. -/
theorem claim_C1_counterexample :
    analyze_multiple apiNonRod [("img.jpg", [0])] =
      .ok [("img.jpg",
        { is_metal_rod := false
          rank := some (.int 1)
          error_message := some NOT_METAL_ROD_MSG })] ∧
    (some (Json.int 1) ≠ (none : Option Json)) := ⟨rfl, by simp⟩

/-- C1 as amended: whenever a result produced by `analyze` or
`analyze_multiple` (any path) has `is_metal_rod = false`, its
`rust_grade` and `rust_score` are null and `error_message` is non-null;
`rank` is additionally null for `analyze` results, but `analyze_multiple`
may attach a rank to a non-rod result (the N=1 path forces `rank = 1`
and the fallback ranks every result, non-rod ones included). -/
theorem claim_C1_amended :
    (∀ (api : VisionAPI) (img : Bytes), (analyze api img).is_metal_rod = false →
      (analyze api img).rust_grade = none ∧ (analyze api img).rust_score = none ∧
      (analyze api img).rank = none ∧ (analyze api img).error_message ≠ none) ∧
    (∀ (api : VisionAPI) (images : List (String × Bytes)) out,
      analyze_multiple api images = .ok out →
      ∀ p ∈ out, p.2.is_metal_rod = false →
        p.2.rust_grade = none ∧ p.2.rust_score = none ∧ p.2.error_message ≠ none) := by
  refine ⟨analyze_false_shape, ?_⟩
  intro api images out hok p hp hfalse
  rcases images with _ | ⟨⟨f, b⟩, tail⟩
  · exact multi_out_false_shape (analyze_multi_branch hok) p hp hfalse
  · rcases tail with _ | ⟨q, rest⟩
    · simp only [analyze_multiple, Except.ok.injEq] at hok
      subst hok
      rcases List.mem_singleton.mp hp with rfl
      have hfalse2 : (analyze api b).is_metal_rod = false := hfalse
      have hshape := analyze_false_shape api b hfalse2
      exact ⟨hshape.1, hshape.2.1, hshape.2.2.2⟩
    · exact multi_out_false_shape (analyze_multi_branch hok) p hp hfalse

/-- Witness for the amended C1 at a concrete non-rod classification. -/
theorem claim_C1_witness :
    (analyze apiNonRod [0]).rust_grade = none ∧ (analyze apiNonRod [0]).rust_score = none ∧
    (analyze apiNonRod [0]).rank = none ∧ (analyze apiNonRod [0]).error_message ≠ none :=
  claim_C1_amended.1 apiNonRod [0] rfl

/-! ### Claim C3 -/

/-- C3 counterexample: with two images whose joint call raises and whose
individual analyses yield a string score for one image and an int score
for the other, `analyze_multiple` raises `TypeError` out of the fallback
sort instead of returning the fallback's output. -/
theorem claim_C3_counterexample :
    analyze_multiple apiMixedScore [("a.jpg", [1]), ("b.jpg", [2])] =
      .error (.typeError
        "\x27<\x27 not supported between instances of \x27str\x27 and \x27int\x27") := rfl

/-- The `error_msg` parameter of the fallback is accepted and never used
(as in the source), so the fallback's return value does not depend on
it. -/
theorem fallback_msg_irrelevant (api : VisionAPI) (images : List (String × Bytes))
    (msg msg2 : String) :
    fallback_individual_analysis api images msg =
      fallback_individual_analysis api images msg2 := rfl

/-- C3 as amended: for N>1, every failure of the comparative route hands
control to the deterministic per-image fallback, whose return value —
whatever it is — becomes the return value of `analyze_multiple`: (1) an
exception raised by the joint vision call; (2) a decode failure of the
joint response (the parser's own `except` route); (3) any error raised
inside the multi-response parse (a structural failure, caught by the
outer handler).  And (4) `analyze_multiple` never raises provided every
per-image `rust_score` the collaborator produces is an integer or
missing, the only shapes the data contract allows.  (Without that
proviso the fallback's sort can raise `TypeError`, which propagates to
the caller.) -/
theorem claim_C3_amended :
    (∀ (api : VisionAPI) (images : List (String × Bytes)) (e : PyErr),
      2 ≤ images.length →
      api.analyze_multiple_images (images.map (fun p => p.2))
          (MULTI_COMPARISON_PROMPT images.length) = .error e →
      analyze_multiple api images = fallback_individual_analysis api images e.str) ∧
    (∀ (api : VisionAPI) (images : List (String × Bytes)),
      2 ≤ images.length →
      api.analyze_multiple_images (images.map (fun p => p.2))
          (MULTI_COMPARISON_PROMPT images.length) = .ok none →
      analyze_multiple api images =
        fallback_individual_analysis api images PARSE_FAIL_MSG) ∧
    (∀ (api : VisionAPI) (images : List (String × Bytes)) (j : Json) (e : PyErr),
      2 ≤ images.length →
      api.analyze_multiple_images (images.map (fun p => p.2))
          (MULTI_COMPARISON_PROMPT images.length) = .ok (some j) →
      parse_multi_response api (some j) images = .error e →
      analyze_multiple api images = fallback_individual_analysis api images e.str) ∧
    (∀ (api : VisionAPI) (images : List (String × Bytes)),
      2 ≤ images.length →
      (∀ pr ∈ images, scoreIntOk (analyze api pr.2) = true) →
      ∃ outList, analyze_multiple api images = .ok outList) := by
  refine ⟨?_, ?_, ?_, ?_⟩
  · intro api images e hlen hjoint
    rcases images with _ | ⟨a, _ | ⟨b2, rest⟩⟩
    · simp at hlen
    · simp at hlen
    · simp only [analyze_multiple, hjoint]
  · intro api images hlen hjoint
    rcases images with _ | ⟨a, _ | ⟨b2, rest⟩⟩
    · simp at hlen
    · simp at hlen
    · simp only [analyze_multiple, hjoint, parse_multi_response]
      cases hfb : fallback_individual_analysis api (a :: b2 :: rest) PARSE_FAIL_MSG with
      | ok rs => simp only [hfb]
      | error e2 =>
          simp only [hfb]
          exact (fallback_msg_irrelevant api (a :: b2 :: rest) e2.str PARSE_FAIL_MSG).trans hfb
  · intro api images j e hlen hjoint hparse
    rcases images with _ | ⟨a, _ | ⟨b2, rest⟩⟩
    · simp at hlen
    · simp at hlen
    · simp only [analyze_multiple, hjoint, hparse]
  · intro api images hlen hsc
    rcases images with _ | ⟨a, _ | ⟨b2, rest⟩⟩
    · simp at hlen
    · simp at hlen
    · cases hjoint : VisionAPI.analyze_multiple_images api
          (List.map (fun p => p.2) (a :: b2 :: rest))
          (MULTI_COMPARISON_PROMPT (List.length (a :: b2 :: rest))) with
      | error e =>
          rw [show analyze_multiple api (a :: b2 :: rest) =
              fallback_individual_analysis api (a :: b2 :: rest) e.str from by
            simp only [analyze_multiple, hjoint]]
          rw [fallback_ok hsc e.str]
          exact ⟨_, rfl⟩
      | ok decoded =>
          cases hparse : parse_multi_response api decoded (a :: b2 :: rest) with
          | ok results =>
              refine ⟨results, ?_⟩
              simp only [analyze_multiple, hjoint, hparse]
          | error e =>
              rw [show analyze_multiple api (a :: b2 :: rest) =
                  fallback_individual_analysis api (a :: b2 :: rest) e.str from by
                simp only [analyze_multiple, hjoint, hparse]]
              rw [fallback_ok hsc e.str]
              exact ⟨_, rfl⟩

/-- Witness for the amended C3, exercising all three fallback triggers:
a raising joint call, a joint response that fails JSON decoding, and a
joint response whose parse raises a structural `TypeError` — each time
`analyze_multiple` returns the fallback's value. -/
theorem claim_C3_witness :
    (analyze_multiple apiFallbackDemo [("one", [1]), ("two", [2])] =
      fallback_individual_analysis apiFallbackDemo [("one", [1]), ("two", [2])]
        (PyErr.exc "transport error").str) ∧
    (analyze_multiple apiDecodeFail [("one", [1]), ("two", [2])] =
      fallback_individual_analysis apiDecodeFail [("one", [1]), ("two", [2])]
        PARSE_FAIL_MSG) ∧
    (analyze_multiple apiStructFail [("one", [1]), ("two", [2])] =
      fallback_individual_analysis apiStructFail [("one", [1]), ("two", [2])]
        (PyErr.typeError "\x27int\x27 object is not iterable").str) :=
  ⟨claim_C3_amended.1 apiFallbackDemo [("one", [1]), ("two", [2])] (.exc "transport error")
      (by decide) rfl,
   claim_C3_amended.2.1 apiDecodeFail [("one", [1]), ("two", [2])] (by decide) rfl,
   claim_C3_amended.2.2.1 apiStructFail [("one", [1]), ("two", [2])] (.int 5)
      (.typeError "\x27int\x27 object is not iterable") (by decide) rfl rfl⟩

/-! ### Claim C5 -/

/-- A missing/falsy rank gives the sentinel key 999. -/
theorem rankMissing_key {p : String × RustAnalysisResult} (h : rankMissing p = true) :
    multiKeyInt p = 999 := by
  simp only [rankMissing, Bool.not_eq_true'] at h
  simp [multiKeyInt, h]

/-- A valid rank gives itself as the key, between 1 and 998. -/
theorem rankValid_key {p : String × RustAnalysisResult} (h : rankValid p = true) :
    1 ≤ multiKeyInt p ∧ multiKeyInt p < 999 := by
  cases hr : p.2.rank with
  | none => simp [rankValid, hr] at h
  | some v =>
      cases v with
      | int r =>
          simp only [rankValid, hr, Bool.and_eq_true, decide_eq_true_eq] at h
          have htr : pyTruthyOpt (some (Json.int r)) = true := by
            simp [pyTruthyOpt, Json.truthy]
            omega
          simp only [multiKeyInt, hr, htr, if_true]
          exact h
      | null => simp [rankValid, hr] at h
      | bool b => simp [rankValid, hr] at h
      | str s => simp [rankValid, hr] at h
      | arr xs => simp [rankValid, hr] at h
      | obj kvs => simp [rankValid, hr] at h

/-- The multi-parser sort key is the integer `multiKeyInt` when the rank
is missing/falsy or valid. -/
theorem multiSortKey_int {p : String × RustAnalysisResult}
    (h : rankMissing p = true ∨ rankValid p = true) :
    multiSortKey p = .int (multiKeyInt p) := by
  rcases h with h | h
  · simp only [rankMissing, Bool.not_eq_true'] at h
    simp [multiSortKey, multiKeyInt, h]
  · cases hr : p.2.rank with
    | none => simp [rankValid, hr] at h
    | some v =>
        cases v with
        | int r =>
            simp only [rankValid, hr, Bool.and_eq_true, decide_eq_true_eq] at h
            have htr : pyTruthyOpt (some (Json.int r)) = true := by
              simp [pyTruthyOpt, Json.truthy]
              omega
            simp [multiSortKey, multiKeyInt, htr, hr]
        | null => simp [rankValid, hr] at h
        | bool b => simp [rankValid, hr] at h
        | str s => simp [rankValid, hr] at h
        | arr xs => simp [rankValid, hr] at h
        | obj kvs => simp [rankValid, hr] at h

/-- C5: in the multi-response parser's final ordering, every entry with a
missing (falsy) rank sorts after every entry carrying a valid rank: the
missing rank becomes the sentinel key 999, larger than any valid rank. -/
theorem claim_C5 (api : VisionAPI) (j : Json) (images : List (String × Bytes))
    (out : List (String × RustAnalysisResult))
    (hok : parse_multi_response api (some j) images = .ok out)
    (hranks : ∀ p ∈ out, rankMissing p = true ∨ rankValid p = true) :
    out.Pairwise (fun a b => rankMissing a = true → rankMissing b = true) := by
  simp only [parse_multi_response] at hok
  cases hit : pyIter j with
  | error e =>
      simp only [hit] at hok
      exact absurd hok (by simp)
  | ok data_list =>
      simp only [hit] at hok
      cases hpe : processEntries images data_list with
      | error e =>
          simp only [hpe] at hok
          exact absurd hok (by simp)
      | ok results =>
          simp only [hpe] at hok
          simp only [pySortByKey] at hok
          have hperm : out.Perm results := by
            have := pySortCmpAux_ok_perm hok
            simpa using this
          have hranks2 : ∀ p ∈ results, rankMissing p = true ∨ rankValid p = true :=
            fun p hp => hranks p (hperm.mem_iff.mpr hp)
          have hk : ∀ x ∈ results, multiSortKey x = .int (multiKeyInt x) :=
            fun x hx => multiSortKey_int (hranks2 x hx)
          have hsorted := pySortByKey_asc_ok hk
          simp only [pySortByKey] at hsorted
          have hout : out = sortB (fun x y => decide (multiKeyInt x < multiKeyInt y)) [] results := by
            have := hok.symm.trans hsorted
            simpa using this
          subst hout
          have hs := sortB_sorted (f := multiKeyInt) (asc_hpf multiKeyInt)
            (l := results) List.Pairwise.nil
          refine List.Pairwise.imp_of_mem ?_ hs
          intro a b ha hb hle hma
          have hmem : ∀ z, z ∈ sortB (fun x y => decide (multiKeyInt x < multiKeyInt y)) [] results →
              z ∈ results := by
            intro z hz
            have := (sortB_perm (fun x y => decide (multiKeyInt x < multiKeyInt y)) results []).mem_iff.mp hz
            simpa using this
          rcases hranks2 b (hmem b hb) with hmb | hvb
          · exact hmb
          · exfalso
            have h999 := rankMissing_key hma
            have hvb2 := rankValid_key hvb
            omega

/-- Witness for C5: an entry without a rank sorts after the entry with
rank 1. -/
theorem claim_C5_witness :
    ([("b", mkMultiResult [("image_index", Json.int 2), ("rank", Json.int 1)]),
      ("a", mkMultiResult [("image_index", Json.int 1)])] :
        List (String × RustAnalysisResult)).Pairwise
      (fun a b => rankMissing a = true → rankMissing b = true) := by
  have := claim_C5 apiUnused
    (.arr [.obj [("image_index", .int 1)], .obj [("image_index", .int 2), ("rank", .int 1)]])
    [("a", [0]), ("b", [1])]
    [("b", mkMultiResult [("image_index", Json.int 2), ("rank", Json.int 1)]),
     ("a", mkMultiResult [("image_index", Json.int 1)])]
    rfl (by decide)
  exact this

/-! ### Claim C4 -/

/-- On well-formed entries the entry loop succeeds and returns exactly
the per-entry pairs, in entry order. -/
theorem processEntries_wf {images : List (String × Bytes)} :
    ∀ {entries : List Json}, (∀ e ∈ entries, entryWf images.length e = true) →
    processEntries images entries = .ok (entries.map (mkEntryPair images))
  | [], _ => rfl
  | e :: rest, h => by
      have he := h e (List.mem_cons_self e rest)
      have hrest : ∀ e2 ∈ rest, entryWf images.length e2 = true :=
        fun e2 h2 => h e2 (List.mem_cons_of_mem e h2)
      cases e with
      | obj kvs =>
          cases hidx : dictGet kvs "image_index" with
          | none => simp [entryWf, hidx] at he
          | some v =>
              cases v with
              | int i =>
                  simp only [entryWf, hidx, Bool.and_eq_true, decide_eq_true_eq] at he
                  have hguard : (0 : Int) ≤ i - 1 ∧ i - 1 < (images.length : Int) := by
                    obtain ⟨⟨h1, h2⟩, _⟩ := he
                    omega
                  simp only [processEntries, dictGetD, hidx, Option.getD, pySubOne]
                  rw [if_pos hguard, processEntries_wf hrest]
                  simp only [List.map_cons, mkEntryPair, entryIndex, hidx]
              | null => simp [entryWf, hidx] at he
              | bool b => simp [entryWf, hidx] at he
              | str s => simp [entryWf, hidx] at he
              | arr xs => simp [entryWf, hidx] at he
              | obj kvs2 => simp [entryWf, hidx] at he
      | null => simp [entryWf] at he
      | bool b => simp [entryWf] at he
      | int n => simp [entryWf] at he
      | str s => simp [entryWf] at he
      | arr xs => simp [entryWf] at he

/-- The pair built from a well-formed entry carries that entry's rank,
an int at least 1. -/
theorem mkEntryPair_rank (images : List (String × Bytes)) {n : Nat} {e : Json}
    (he : entryWf n e = true) :
    (mkEntryPair images e).2.rank = some (.int (entryRank e)) ∧ 1 ≤ entryRank e := by
  cases e with
  | obj kvs =>
      cases hr : dictGet kvs "rank" with
      | none => simp [entryWf, hr] at he
      | some v =>
          cases v with
          | int r =>
              simp only [entryWf, hr, Bool.and_eq_true, decide_eq_true_eq] at he
              constructor
              · simp [mkEntryPair, mkMultiResult, entryRank, hr]
              · simp only [entryRank, hr]
                exact he.2
          | null => simp [entryWf, hr] at he
          | bool b => simp [entryWf, hr] at he
          | str s => simp [entryWf, hr] at he
          | arr xs => simp [entryWf, hr] at he
          | obj kvs2 => simp [entryWf, hr] at he
  | null => simp [entryWf] at he
  | bool b => simp [entryWf] at he
  | int n2 => simp [entryWf] at he
  | str s => simp [entryWf] at he
  | arr xs => simp [entryWf] at he

/-- A pair whose rank is an int at least 1 has that rank as its integer
sort key (the rank is truthy, so the sentinel is not used). -/
theorem multiKeyInt_of_rank {p : String × RustAnalysisResult} {r : Int}
    (hr : p.2.rank = some (.int r)) (h1 : 1 ≤ r) :
    multiKeyInt p = r ∧ multiSortKey p = .int r := by
  have htr : pyTruthyOpt (some (Json.int r)) = true := by
    simp [pyTruthyOpt, Json.truthy]
    omega
  constructor
  · simp [multiKeyInt, hr, htr]
  · simp [multiSortKey, hr, htr]

/-- The list `[1, ..., n]` of integers is sorted. -/
theorem rangeInts_sorted (n : Nat) :
    ((List.range n).map (fun i : Nat => (i : Int) + 1)).Pairwise (fun a b => a ≤ b) := by
  induction n with
  | zero => simp
  | succ m ih =>
      rw [List.range_succ, List.map_append]
      refine List.pairwise_append.mpr ⟨ih, ?_, ?_⟩
      · simp
      · intro x hx y hy
        rcases List.mem_map.mp hx with ⟨i, hi, rfl⟩
        rcases List.mem_map.mp hy with ⟨j, hj, rfl⟩
        rw [List.mem_range] at hi
        rcases List.mem_singleton.mp hj with rfl
        show (i : Int) + 1 ≤ (j : Int) + 1
        omega

/-- C4: for a well-formed multi-image JSON array of size N whose entries
carry in-range `image_index` values 1..N and whose ranks form a
permutation of 1..N, the parser returns exactly N pairs — a permutation
of the per-entry pairs, each attributing the entry to the image at
position `image_index - 1` — sorted ascending by rank, so the rank fields
read 1, ..., N in order. -/
theorem claim_C4 (api : VisionAPI) (images : List (String × Bytes)) (entries : List Json)
    (out : List (String × RustAnalysisResult))
    (hN : entries.length = images.length)
    (hwf : ∀ e ∈ entries, entryWf images.length e = true)
    (hperm : (entries.map entryRank).Perm
      ((List.range images.length).map (fun i : Nat => (i : Int) + 1)))
    (hok : parse_multi_response api (some (.arr entries)) images = .ok out) :
    out.length = images.length ∧
    out.Perm (entries.map (mkEntryPair images)) ∧
    out.map (fun p => p.2.rank) =
      (List.range images.length).map (fun i : Nat => some (Json.int ((i : Int) + 1))) := by
  simp only [parse_multi_response, pyIter, processEntries_wf hwf, pySortByKey] at hok
  have hkey : ∀ x ∈ entries.map (mkEntryPair images), multiSortKey x = .int (multiKeyInt x) := by
    intro x hx
    rcases List.mem_map.mp hx with ⟨e, hee, rfl⟩
    rcases mkEntryPair_rank images (hwf e hee) with ⟨hr, h1⟩
    exact (multiKeyInt_of_rank hr h1).2.trans (by
      rw [(multiKeyInt_of_rank hr h1).1])
  have hsorted := pySortByKey_asc_ok hkey
  simp only [pySortByKey] at hsorted
  have hout : out = sortB (fun x y => decide (multiKeyInt x < multiKeyInt y)) []
      (entries.map (mkEntryPair images)) := by
    have := hok.symm.trans hsorted
    simpa using this
  subst hout
  have hperm2 : (sortB (fun x y => decide (multiKeyInt x < multiKeyInt y)) []
      (entries.map (mkEntryPair images))).Perm (entries.map (mkEntryPair images)) := by
    have := sortB_perm (fun x y => decide (multiKeyInt x < multiKeyInt y))
      (entries.map (mkEntryPair images)) []
    simpa using this
  refine ⟨?_, hperm2, ?_⟩
  · rw [hperm2.length_eq, List.length_map, hN]
  · -- rank fields read 1..N in order
    have hs := sortB_sorted (f := multiKeyInt) (asc_hpf multiKeyInt)
      (l := entries.map (mkEntryPair images)) List.Pairwise.nil
    have hkeq : ∀ p ∈ sortB (fun x y => decide (multiKeyInt x < multiKeyInt y)) []
        (entries.map (mkEntryPair images)), p.2.rank = some (.int (multiKeyInt p)) := by
      intro p hp
      have hpin := hperm2.mem_iff.mp hp
      rcases List.mem_map.mp hpin with ⟨e, hee, rfl⟩
      rcases mkEntryPair_rank images (hwf e hee) with ⟨hr, h1⟩
      rw [hr, (multiKeyInt_of_rank hr h1).1]
    rw [List.map_congr_left hkeq]
    have hmm : (sortB (fun x y => decide (multiKeyInt x < multiKeyInt y)) []
        (entries.map (mkEntryPair images))).map (fun p => some (Json.int (multiKeyInt p))) =
        ((sortB (fun x y => decide (multiKeyInt x < multiKeyInt y)) []
          (entries.map (mkEntryPair images))).map multiKeyInt).map
            (fun z => some (Json.int z)) := by
      rw [List.map_map]
      rfl
    rw [hmm]
    have hks : ((sortB (fun x y => decide (multiKeyInt x < multiKeyInt y)) []
        (entries.map (mkEntryPair images))).map multiKeyInt) =
        (List.range images.length).map (fun i : Nat => (i : Int) + 1) := by
      refine List.eq_of_perm_of_sorted ?_ ?_ (rangeInts_sorted images.length)
      · refine ((hperm2.map multiKeyInt).trans ?_)
        have hmk : (entries.map (mkEntryPair images)).map multiKeyInt =
            entries.map entryRank := by
          rw [List.map_map]
          refine List.map_congr_left ?_
          intro e hee
          rcases mkEntryPair_rank images (hwf e hee) with ⟨hr, h1⟩
          exact (multiKeyInt_of_rank hr h1).1
        rw [hmk]
        exact hperm
      · exact List.pairwise_map.mpr hs
    rw [hks, List.map_map]
    rfl

/-- Witness for C4: the spec's scenario 2 — three images with ranks
[2,1,3] on indices [1,2,3] come back ordered (image2, rank 1),
(image1, rank 2), (image3, rank 3). -/
theorem claim_C4_witness :
    ([("image2", mkMultiResult [("image_index", Json.int 2), ("rank", Json.int 1),
        ("rust_score", Json.int 80)]),
      ("image1", mkMultiResult [("image_index", Json.int 1), ("rank", Json.int 2),
        ("rust_score", Json.int 50)]),
      ("image3", mkMultiResult [("image_index", Json.int 3), ("rank", Json.int 3),
        ("rust_score", Json.int 10)])] :
        List (String × RustAnalysisResult)).length = 3 ∧
    ([("image2", mkMultiResult [("image_index", Json.int 2), ("rank", Json.int 1),
        ("rust_score", Json.int 80)]),
      ("image1", mkMultiResult [("image_index", Json.int 1), ("rank", Json.int 2),
        ("rust_score", Json.int 50)]),
      ("image3", mkMultiResult [("image_index", Json.int 3), ("rank", Json.int 3),
        ("rust_score", Json.int 10)])] :
        List (String × RustAnalysisResult)).Perm
      ([demoEntry 1 2 50, demoEntry 2 1 80, demoEntry 3 3 10].map
        (mkEntryPair [("image1", [1]), ("image2", [2]), ("image3", [3])])) ∧
    ([("image2", mkMultiResult [("image_index", Json.int 2), ("rank", Json.int 1),
        ("rust_score", Json.int 80)]),
      ("image1", mkMultiResult [("image_index", Json.int 1), ("rank", Json.int 2),
        ("rust_score", Json.int 50)]),
      ("image3", mkMultiResult [("image_index", Json.int 3), ("rank", Json.int 3),
        ("rust_score", Json.int 10)])] :
        List (String × RustAnalysisResult)).map (fun p => p.2.rank) =
      (List.range 3).map (fun i : Nat => some (Json.int ((i : Int) + 1))) := by
  have := claim_C4 apiUnused [("image1", [1]), ("image2", [2]), ("image3", [3])]
    [demoEntry 1 2 50, demoEntry 2 1 80, demoEntry 3 3 10]
    [("image2", mkMultiResult [("image_index", Json.int 2), ("rank", Json.int 1),
        ("rust_score", Json.int 80)]),
     ("image1", mkMultiResult [("image_index", Json.int 1), ("rank", Json.int 2),
        ("rust_score", Json.int 50)]),
     ("image3", mkMultiResult [("image_index", Json.int 3), ("rank", Json.int 3),
        ("rust_score", Json.int 10)])]
    rfl (by decide) (by decide) rfl
  exact this

/-! ### Claim C7 -/

/-- A score in the declared range is in particular int-or-missing. -/
theorem scoreInRange_intOk {r : RustAnalysisResult} (h : scoreInRange r = true) :
    scoreIntOk r = true := by
  cases hs : r.rust_score with
  | none => simp [scoreIntOk, hs]
  | some v =>
      cases v with
      | null => simp [scoreIntOk, hs]
      | int n => simp [scoreIntOk, hs]
      | bool b => simp [scoreInRange, hs] at h
      | str s => simp [scoreInRange, hs] at h
      | arr xs => simp [scoreInRange, hs] at h
      | obj kvs => simp [scoreInRange, hs] at h

/-- Under an in-range score, a metal-rod pair keys at least 0 (missing
score keys 0). -/
theorem fallbackKeyInt_nonneg {p : String × RustAnalysisResult}
    (hrod : p.2.is_metal_rod = true) (hsc : scoreInRange p.2 = true) :
    0 ≤ fallbackKeyInt p := by
  simp only [fallbackKeyInt, hrod]
  norm_num
  cases hs : p.2.rust_score with
  | none => simp
  | some v =>
      cases v with
      | null => simp
      | int n =>
          simp only [scoreInRange, hs, Bool.and_eq_true, decide_eq_true_eq] at hsc
          simpa using hsc.1
      | bool b => simp [scoreInRange, hs] at hsc
      | str s => simp [scoreInRange, hs] at hsc
      | arr xs => simp [scoreInRange, hs] at hsc
      | obj kvs => simp [scoreInRange, hs] at hsc

/-- A non-rod pair keys exactly -1, whatever its score. -/
theorem fallbackKeyInt_nonrod {p : String × RustAnalysisResult}
    (hrod : p.2.is_metal_rod = false) : fallbackKeyInt p = -1 := by
  simp [fallbackKeyInt, hrod]

/-- The ranks the fallback assigns read `s, s+1, ...` down the sorted
list. -/
theorem assignRanks_map_rank :
    ∀ (l : List (String × RustAnalysisResult)) (s : Int),
    (assignRanks s l).map (fun p => p.2.rank) =
      (List.range l.length).map (fun i : Nat => some (Json.int ((i : Int) + s)))
  | [], s => by simp [assignRanks]
  | p :: ps, s => by
      have ih := assignRanks_map_rank ps (s + 1)
      simp only [assignRanks, List.map_cons, ih, List.length_cons, List.range_succ_eq_map,
        List.map_map]
      congr 1
      · norm_num
      · refine List.map_congr_left ?_
        intro i _
        simp only [Function.comp_apply, Option.some.injEq, Json.int.injEq]
        push_cast
        ring

/-- C7: the fallback ranking is a deterministic pure function of the
per-image results.  Under scores of the declared range 0..100 (or
missing), the sort never raises and produces the stable descending
insertion sort `sortB` of the per-image results keyed by
`fallbackKeyInt` (non-rod ⇒ -1, else score-or-0): a permutation of the
results, keys non-increasing, every non-rod result after every
metal-rod result, key-ties kept in input order (the filter equations),
and ranks 1..N assigned down the sorted order. -/
theorem claim_C7 (api : VisionAPI) (images : List (String × Bytes))
    (hsc : ∀ pr ∈ images, scoreInRange (analyze api pr.2) = true) :
    (∀ msg, fallback_individual_analysis api images msg =
      .ok (assignRanks 1 (sortB (fun x y => decide (fallbackKeyInt y < fallbackKeyInt x)) []
        (images.map (fun pr => (pr.1, analyze api pr.2)))))) ∧
    (sortB (fun x y => decide (fallbackKeyInt y < fallbackKeyInt x)) []
        (images.map (fun pr => (pr.1, analyze api pr.2)))).Perm
      (images.map (fun pr => (pr.1, analyze api pr.2))) ∧
    (sortB (fun x y => decide (fallbackKeyInt y < fallbackKeyInt x)) []
        (images.map (fun pr => (pr.1, analyze api pr.2)))).Pairwise
      (fun a b => fallbackKeyInt b ≤ fallbackKeyInt a) ∧
    (sortB (fun x y => decide (fallbackKeyInt y < fallbackKeyInt x)) []
        (images.map (fun pr => (pr.1, analyze api pr.2)))).Pairwise
      (fun a b => a.2.is_metal_rod = false → b.2.is_metal_rod = false) ∧
    (∀ c : Int, (sortB (fun x y => decide (fallbackKeyInt y < fallbackKeyInt x)) []
        (images.map (fun pr => (pr.1, analyze api pr.2)))).filter
          (fun p => decide (fallbackKeyInt p = c)) =
      (images.map (fun pr => (pr.1, analyze api pr.2))).filter
        (fun p => decide (fallbackKeyInt p = c))) ∧
    (assignRanks 1 (sortB (fun x y => decide (fallbackKeyInt y < fallbackKeyInt x)) []
        (images.map (fun pr => (pr.1, analyze api pr.2))))).map (fun p => p.2.rank) =
      (List.range images.length).map (fun i : Nat => some (Json.int ((i : Int) + 1))) := by
  have hsc2 : ∀ pr ∈ images, scoreIntOk (analyze api pr.2) = true :=
    fun pr hpr => scoreInRange_intOk (hsc pr hpr)
  have hrange : ∀ q ∈ images.map (fun pr => (pr.1, analyze api pr.2)),
      scoreInRange q.2 = true := by
    intro q hq
    rcases List.mem_map.mp hq with ⟨pr, hpr, rfl⟩
    exact hsc pr hpr
  have hperm : (sortB (fun x y => decide (fallbackKeyInt y < fallbackKeyInt x)) []
      (images.map (fun pr => (pr.1, analyze api pr.2)))).Perm
      (images.map (fun pr => (pr.1, analyze api pr.2))) := by
    have := sortB_perm (fun x y => decide (fallbackKeyInt y < fallbackKeyInt x))
      (images.map (fun pr => (pr.1, analyze api pr.2))) []
    simpa using this
  have hpf := desc_hpf (α := String × RustAnalysisResult) fallbackKeyInt
  have hs := sortB_sorted (f := fun x => -(fallbackKeyInt x)) hpf
    (l := images.map (fun pr => (pr.1, analyze api pr.2))) List.Pairwise.nil
  have hdesc : (sortB (fun x y => decide (fallbackKeyInt y < fallbackKeyInt x)) []
      (images.map (fun pr => (pr.1, analyze api pr.2)))).Pairwise
      (fun a b => fallbackKeyInt b ≤ fallbackKeyInt a) := by
    refine hs.imp ?_
    intro a b h
    have h2 : -(fallbackKeyInt a) ≤ -(fallbackKeyInt b) := h
    omega
  refine ⟨fun msg => fallback_ok hsc2 msg, hperm, hdesc, ?_, ?_, ?_⟩
  · -- non-rod results sort after every metal-rod result
    refine List.Pairwise.imp_of_mem ?_ hdesc
    intro a b ha hb hle hfa
    by_contra hfb
    have hbtrue : b.2.is_metal_rod = true := by
      cases h2 : b.2.is_metal_rod with
      | true => rfl
      | false => exact absurd h2 hfb
    have hb2 := fallbackKeyInt_nonneg hbtrue (hrange b (hperm.mem_iff.mp hb))
    have ha2 := fallbackKeyInt_nonrod hfa
    omega
  · -- stability: key-classes keep the input order
    intro c
    have hstable := sortB_filter_stable (f := fun x => -(fallbackKeyInt x)) hpf (c := -c)
      (l := images.map (fun pr => (pr.1, analyze api pr.2))) List.Pairwise.nil
    simp only [List.filter_nil, List.nil_append] at hstable
    have hcongr : ∀ (l : List (String × RustAnalysisResult)),
        l.filter (fun p => decide (-(fallbackKeyInt p) = -c)) =
        l.filter (fun p => decide (fallbackKeyInt p = c)) := by
      intro l
      refine List.filter_congr ?_
      intro x _
      simp only [decide_eq_decide]
      omega
    rw [hcongr, hcongr] at hstable
    exact hstable
  · -- ranks 1..N follow the sorted order
    rw [assignRanks_map_rank, hperm.length_eq, List.length_map]

/-- Witness for C7 at four images: scores 30, 85, non-rod, 85 — the tie
keeps input order, the non-rod image comes last, ranks are 1..4. -/
theorem claim_C7_witness :
    fallback_individual_analysis apiFallbackDemo
      [("one", [1]), ("two", [2]), ("three", [3]), ("four", [4])] "" =
      .ok (assignRanks 1 (sortB (fun x y => decide (fallbackKeyInt y < fallbackKeyInt x)) []
        ([("one", [1]), ("two", [2]), ("three", [3]), ("four", [4])].map
          (fun pr => (pr.1, analyze apiFallbackDemo pr.2))))) ∧
    (sortB (fun x y => decide (fallbackKeyInt y < fallbackKeyInt x)) []
        ([("one", [1]), ("two", [2]), ("three", [3]), ("four", [4])].map
          (fun pr => (pr.1, analyze apiFallbackDemo pr.2)))).Pairwise
      (fun a b => a.2.is_metal_rod = false → b.2.is_metal_rod = false) ∧
    (assignRanks 1 (sortB (fun x y => decide (fallbackKeyInt y < fallbackKeyInt x)) []
        ([("one", [1]), ("two", [2]), ("three", [3]), ("four", [4])].map
          (fun pr => (pr.1, analyze apiFallbackDemo pr.2))))).map (fun p => p.2.rank) =
      (List.range 4).map (fun i : Nat => some (Json.int ((i : Int) + 1))) := by
  have h := claim_C7 apiFallbackDemo
    [("one", [1]), ("two", [2]), ("three", [3]), ("four", [4])] (by decide)
  exact ⟨h.1 "", h.2.2.2.1, h.2.2.2.2.2⟩

/-! ### Claim C8 -/

/-- The digit characters 0..9 are digits and carry their value at
code-point offset 48. -/
theorem digitChar_spec (k : Nat) (h : k < 10) :
    (Nat.digitChar k).isDigit = true ∧ (Nat.digitChar k).toNat - 48 = k := by
  interval_cases k <;> exact ⟨by decide, by decide⟩

/-- Every character of the reference digit expansion is a digit. -/
theorem digitsRep_digits (n : Nat) : ∀ c ∈ digitsRep n, c.isDigit = true := by
  induction n using Nat.strong_induction_on with
  | _ n ih =>
      rw [digitsRep]
      split
      · intro c hc
        rcases List.mem_singleton.mp hc with rfl
        exact (digitChar_spec n (by omega)).1
      · intro c hc
        rcases List.mem_append.mp hc with hc | hc
        · exact ih (n / 10) (Nat.div_lt_self (by omega) (by omega)) c hc
        · rcases List.mem_singleton.mp hc with rfl
          exact (digitChar_spec (n % 10) (Nat.mod_lt n (by omega))).1

/-- `Nat.toDigitsCore` computes the reference digit expansion. -/
theorem toDigitsCore_eq :
    ∀ (fuel n : Nat) (ds : List Char), n < fuel →
    Nat.toDigitsCore 10 fuel n ds = digitsRep n ++ ds
  | 0, n, ds, h => absurd h (by omega)
  | fuel + 1, n, ds, h => by
      simp only [Nat.toDigitsCore]
      by_cases hdiv : n / 10 = 0
      · have hn : n < 10 := by omega
        rw [if_pos hdiv, digitsRep, if_pos hn, Nat.mod_eq_of_lt hn]
        rfl
      · have hn : ¬ n < 10 := by
          intro hlt
          exact hdiv (Nat.div_eq_of_lt hlt)
        have hfuel : n / 10 < fuel := by
          have := Nat.div_lt_self (show 0 < n by omega) (show 1 < 10 by omega)
          omega
        rw [if_neg hdiv, toDigitsCore_eq fuel (n / 10) _ hfuel]
        conv_rhs => rw [digitsRep]
        rw [if_neg hn]
        simp

/-- Folding over an appended list runs the two parts in sequence. -/
theorem digitsToNatAux_append :
    ∀ (l1 l2 : List Char) (acc : Nat),
    digitsToNatAux (l1 ++ l2) acc =
      match digitsToNatAux l1 acc with
      | none => none
      | some a => digitsToNatAux l2 a
  | [], l2, acc => rfl
  | c :: cs, l2, acc => by
      simp only [List.cons_append, List.append_eq, digitsToNatAux]
      by_cases hc : c.isDigit
      · rw [if_pos hc, if_pos hc, digitsToNatAux_append]
      · rw [if_neg hc, if_neg hc]

/-- Parsing the reference digit expansion recovers the number (with the
accumulator scaled by the digit count). -/
theorem digitsToNatAux_rep (n : Nat) :
    ∀ acc, digitsToNatAux (digitsRep n) acc =
      some (acc * 10 ^ (digitsRep n).length + n) := by
  induction n using Nat.strong_induction_on with
  | _ n ih =>
      intro acc
      rw [digitsRep]
      split
      · rename_i hn
        rcases digitChar_spec n (by omega) with ⟨hd, hv⟩
        simp only [digitsToNatAux, if_pos hd, hv, List.length_singleton]
        congr 1
        ring
      · rename_i hn
        rcases digitChar_spec (n % 10) (Nat.mod_lt n (by omega)) with ⟨hd, hv⟩
        rw [digitsToNatAux_append]
        rw [ih (n / 10) (Nat.div_lt_self (by omega) (by omega)) acc]
        simp only [digitsToNatAux, if_pos hd, hv, List.length_append,
          List.length_singleton]
        congr 1
        calc 10 * (acc * 10 ^ (digitsRep (n / 10)).length + n / 10) + n % 10
            = acc * (10 ^ (digitsRep (n / 10)).length * 10) + (10 * (n / 10) + n % 10) := by
              ring
          _ = acc * 10 ^ ((digitsRep (n / 10)).length + 1) + n := by
              rw [pow_succ, Nat.div_add_mod]

/-- The reference digit expansion is non-empty. -/
theorem digitsRep_ne_nil (n : Nat) : digitsRep n ≠ [] := by
  rw [digitsRep]
  split
  · simp
  · simp

/-- Parsing the reference digit expansion recovers the number. -/
theorem digitsToNat_rep (n : Nat) : digitsToNat? (digitsRep n) = some n := by
  have haux := digitsToNatAux_rep n 0
  cases hsh : digitsRep n with
  | nil => exact absurd hsh (digitsRep_ne_nil n)
  | cons c cs =>
      rw [hsh] at haux
      simpa [digitsToNat?] using haux

/-- A digit character is not a tilde. -/
theorem isDigit_ne_tilde {c : Char} (h : c.isDigit = true) : c ≠ '~' := by
  intro hc
  subst hc
  exact absurd h (by decide)

/-- Splitting at the tilde after tilde-free characters returns the two
surrounding segments. -/
theorem splitTilde_append :
    ∀ (l1 l2 : List Char), (∀ c ∈ l1, c ≠ '~') →
    splitTilde (l1 ++ '~' :: l2) = some (l1, l2)
  | [], l2, _ => by simp [splitTilde]
  | c :: cs, l2, h => by
      have hc : c ≠ '~' := h c (List.mem_cons_self c cs)
      have hcs : ∀ x ∈ cs, x ≠ '~' := fun x hx => h x (List.mem_cons_of_mem c hx)
      simp only [List.cons_append, List.append_eq, splitTilde, if_neg hc,
        splitTilde_append cs l2 hcs]

/-- String `++` concatenates the character lists. -/
theorem strToList_append (s t : String) : (s ++ t).toList = s.toList ++ t.toList := by
  cases s
  cases t
  rfl

/-- The characters of `Nat.repr` are the reference digit expansion. -/
theorem repr_toList (n : Nat) : (Nat.repr n).toList = digitsRep n := by
  show (Nat.toDigits 10 n).asString.toList = digitsRep n
  rw [Nat.toDigits, toDigitsCore_eq (n + 1) n [] (by omega)]
  simp [List.asString, String.toList]

/-- `str()` of a non-negative int is the decimal `Nat.repr` of its
magnitude. -/
theorem toString_int_nonneg (i : Int) (h : 0 ≤ i) : toString i = Nat.repr i.toNat := by
  rcases i with m | m
  · rfl
  · simp at h

/-- Recovery of the combined percentage range string: the formatted
`min~max%` string determines the pair. -/
theorem recoverRange_fmt (mn mx : Nat) :
    recoverRange (Nat.repr mn ++ "~" ++ Nat.repr mx ++ "%") = some (mn, mx) := by
  have htl : (Nat.repr mn ++ "~" ++ Nat.repr mx ++ "%").toList =
      digitsRep mn ++ '~' :: (digitsRep mx ++ ['%']) := by
    rw [strToList_append, strToList_append, strToList_append, repr_toList, repr_toList]
    simp [String.toList]
  rw [recoverRange, htl, splitTilde_append _ _ (fun c hc =>
    isDigit_ne_tilde (digitsRep_digits mn c hc))]
  simp only [List.reverse_append, List.reverse_cons, List.reverse_nil, List.nil_append,
    List.singleton_append, List.reverse_reverse]
  rw [digitsToNat_rep, digitsToNat_rep]

/-- C8: for a single-image JSON object with `is_metal_rod=true` carrying
all declared fields (the percentage ends being non-negative ints, as the
0..100 contract declares), parsing is lossless: the parser returns the
constructed result whose fields are exactly the input values, the
percentage pair appearing as the combined `min~max%` string from which
`recoverRange` recovers both ends. -/
theorem claim_C8 (kvs : List (String × Json)) (g sc conf ca sa cra ar : Json) (mn mx : Int)
    (hflag : dictGet kvs "is_metal_rod" = some (.bool true))
    (hg : dictGet kvs "rust_grade" = some g)
    (hsc : dictGet kvs "rust_score" = some sc)
    (hconf : dictGet kvs "confidence_score" = some conf)
    (hmn : dictGet kvs "rust_percentage_min" = some (.int mn))
    (hmx : dictGet kvs "rust_percentage_max" = some (.int mx))
    (hmn0 : 0 ≤ mn) (hmx0 : 0 ≤ mx)
    (hca : dictGet kvs "color_analysis" = some ca)
    (hsa : dictGet kvs "surface_analysis" = some sa)
    (hcra : dictGet kvs "corrosion_analysis" = some cra)
    (har : dictGet kvs "analysis_reason" = some ar) :
    parse_single_response (some (.obj kvs)) = .ok (mkSingleResult kvs) ∧
    (mkSingleResult kvs).is_metal_rod = true ∧
    (mkSingleResult kvs).rust_grade = some g ∧
    (mkSingleResult kvs).rust_score = some sc ∧
    (mkSingleResult kvs).confidence_score = some conf ∧
    (mkSingleResult kvs).color_analysis = some ca ∧
    (mkSingleResult kvs).surface_analysis = some sa ∧
    (mkSingleResult kvs).corrosion_analysis = some cra ∧
    (mkSingleResult kvs).analysis_reason = some ar ∧
    (mkSingleResult kvs).rust_percentage =
      some (toString mn ++ "~" ++ toString mx ++ "%") ∧
    recoverRange (toString mn ++ "~" ++ toString mx ++ "%") = some (mn.toNat, mx.toNat) ∧
    ((mn.toNat : Int) = mn ∧ (mx.toNat : Int) = mx) := by
  refine ⟨?_, rfl, ?_, ?_, ?_, ?_, ?_, ?_, ?_, ?_, ?_, by omega, by omega⟩
  · simp [parse_single_response, dictGetD, hflag, Json.truthy]
  · simp [mkSingleResult, hg]
  · simp [mkSingleResult, hsc]
  · simp [mkSingleResult, hconf]
  · simp [mkSingleResult, hca]
  · simp [mkSingleResult, hsa]
  · simp [mkSingleResult, hcra]
  · simp [mkSingleResult, har]
  · simp only [mkSingleResult, pyGetOpt, hmn, hmx]
    rfl
  · rw [toString_int_nonneg mn hmn0, toString_int_nonneg mx hmx0]
    exact recoverRange_fmt mn.toNat mx.toNat

/-- Witness for C8 at a fully populated object with range 10..30. -/
theorem claim_C8_witness :
    parse_single_response (some (.obj
      [("is_metal_rod", Json.bool true), ("rust_grade", Json.str "심각"),
       ("rust_score", Json.int 85), ("confidence_score", Json.int 90),
       ("rust_percentage_min", Json.int 10), ("rust_percentage_max", Json.int 30),
       ("color_analysis", Json.str "c"), ("surface_analysis", Json.str "s"),
       ("corrosion_analysis", Json.str "r"), ("analysis_reason", Json.str "a")])) =
      .ok (mkSingleResult
      [("is_metal_rod", Json.bool true), ("rust_grade", Json.str "심각"),
       ("rust_score", Json.int 85), ("confidence_score", Json.int 90),
       ("rust_percentage_min", Json.int 10), ("rust_percentage_max", Json.int 30),
       ("color_analysis", Json.str "c"), ("surface_analysis", Json.str "s"),
       ("corrosion_analysis", Json.str "r"), ("analysis_reason", Json.str "a")]) ∧
    (mkSingleResult
      [("is_metal_rod", Json.bool true), ("rust_grade", Json.str "심각"),
       ("rust_score", Json.int 85), ("confidence_score", Json.int 90),
       ("rust_percentage_min", Json.int 10), ("rust_percentage_max", Json.int 30),
       ("color_analysis", Json.str "c"), ("surface_analysis", Json.str "s"),
       ("corrosion_analysis", Json.str "r"), ("analysis_reason", Json.str "a")]).rust_grade =
      some (Json.str "심각") ∧
    recoverRange (toString (10 : Int) ++ "~" ++ toString (30 : Int) ++ "%") =
      some ((10 : Int).toNat, (30 : Int).toNat) := by
  have h := claim_C8
    [("is_metal_rod", Json.bool true), ("rust_grade", Json.str "심각"),
     ("rust_score", Json.int 85), ("confidence_score", Json.int 90),
     ("rust_percentage_min", Json.int 10), ("rust_percentage_max", Json.int 30),
     ("color_analysis", Json.str "c"), ("surface_analysis", Json.str "s"),
     ("corrosion_analysis", Json.str "r"), ("analysis_reason", Json.str "a")]
    (Json.str "심각") (Json.int 85) (Json.int 90) (Json.str "c") (Json.str "s")
    (Json.str "r") (Json.str "a") 10 30
    rfl rfl rfl rfl rfl rfl (by omega) (by omega) rfl rfl rfl rfl
  exact ⟨h.1, h.2.2.1, h.2.2.2.2.2.2.2.2.2.2.1⟩

end RustDetect
